import Mathlib

/-!
Verification of the explorastur event-aggregator against its specification.

Strings are embedded as `List Char`. Regular-expression operations from the
Python source are embedded as specialised scanners that reproduce the
left-to-right, non-overlapping, greedy-with-lookahead semantics of the
concrete patterns used by the code (for each pattern the greedy/backtracking
behaviour collapses to a deterministic scan, as noted at each definition).
-/

/-- Characters matched by the regex class `\s` (ASCII whitespace as used by
Python on the ASCII inputs handled here). -/
def isSpaceC (c : Char) : Bool :=
  c.toNat == 32 || c.toNat == 9 || c.toNat == 10 || c.toNat == 13 ||
  c.toNat == 11 || c.toNat == 12

/-- Characters matched by the regex class `\d` (ASCII digits). -/
def isDigitC (c : Char) : Bool :=
  decide (48 ≤ c.toNat) && decide (c.toNat ≤ 57)

/-- Characters matched by `[A-Z]`. -/
def isUpperAlpha (c : Char) : Bool :=
  decide (65 ≤ c.toNat) && decide (c.toNat ≤ 90)

/-- Characters matched by `[a-z]`. -/
def isLowerAlpha (c : Char) : Bool :=
  decide (97 ≤ c.toNat) && decide (c.toNat ≤ 122)

/-- Characters matched by `[a-zA-Z]`. -/
def isAsciiAlpha (c : Char) : Bool :=
  isUpperAlpha c || isLowerAlpha c

/-- Lowercase accented letters appearing in the Spanish text handled by the
program (used to model Python `str.lower` / cased-ness on this alphabet). -/
def accentLower : List Char := ['á', 'é', 'í', 'ó', 'ú', 'ñ', 'ü']

/-- Uppercase accented letters, in the same order as `accentLower`. -/
def accentUpper : List Char := ['Á', 'É', 'Í', 'Ó', 'Ú', 'Ñ', 'Ü']

/-- Model of Python `str.lower` on a single character: ASCII letters plus the
Spanish accented letters. -/
def toLowerC (c : Char) : Char :=
  if isUpperAlpha c then Char.ofNat (c.toNat + 32)
  else
    match accentUpper.findIdx? (fun x => x == c) with
    | some i => accentLower.getD i c
    | none => c

/-- Model of Python `str.lower` on a whole string. -/
def lowerL (l : List Char) : List Char := l.map toLowerC

/-- Model of the Python substring test `pat in hay`. -/
def containsSub (hay pat : List Char) : Bool :=
  match hay with
  | [] => pat.isEmpty
  | _ :: t => pat.isPrefixOf hay || containsSub t pat

/-- Model of Python `str.strip()` (whitespace stripped from both ends). -/
def stripWs (l : List Char) : List Char :=
  ((l.dropWhile isSpaceC).reverse.dropWhile isSpaceC).reverse

/-- Value of a digit string, as computed by Python `int`. -/
def natOfDigits (ds : List Char) : Nat :=
  ds.foldl (fun acc c => acc * 10 + (c.toNat - 48)) 0

/-- Model of Python `range(a, b + 1)` as a list (empty when `b < a`). -/
def rangeIncl (a b : Nat) : List Nat :=
  (List.range (b + 1 - a)).map (a + ·)

/-- Worker for `scanFindAll`, structurally recursive on a fuel argument so
that it reduces inside the kernel; the fuel is initialised to the length of
the scanned list and every step consumes at least one character, so it never
runs out. -/
def scanFindAllAux {α : Type} (tryM : List Char → Option (α × Nat)) :
    Nat → List Char → List α
  | 0, _ => []
  | _, [] => []
  | fuel + 1, c :: rest =>
    match tryM (c :: rest) with
    | some (a, k) => a :: scanFindAllAux tryM fuel (rest.drop (k - 1))
    | none => scanFindAllAux tryM fuel rest

/-- Generic model of `re.findall`: at each position try a match; on success
emit the captured value and resume after the consumed characters (`k` is the
total number of characters consumed, counted from the current position); on
failure advance one character, exactly as the regex engine scans. -/
def scanFindAll {α : Type} (tryM : List Char → Option (α × Nat))
    (l : List Char) : List α :=
  scanFindAllAux tryM l.length l

/-- Generic model of `re.search`: return the first position (scanning left to
right) at which the given matcher succeeds. -/
def searchFirst {α : Type} (tryM : List Char → Option α) : List Char → Option α
  | [] => none
  | c :: rest =>
    match tryM (c :: rest) with
    | some a => some a
    | none => searchFirst tryM rest

/-- Lookahead `(?=\s+de\s+[a-zA-Z]+)` used by the day-extraction patterns.
Each `\s+`/`[a-zA-Z]+` is greedy; shorter alternatives always fail on the
following literal, so the scan is deterministic. -/
def lookDeAlpha (l : List Char) : Bool :=
  let sp1 := l.takeWhile isSpaceC
  if sp1.isEmpty then false
  else
    match l.dropWhile isSpaceC with
    | 'd' :: 'e' :: r2 =>
      let sp2 := r2.takeWhile isSpaceC
      if sp2.isEmpty then false
      else
        match r2.dropWhile isSpaceC with
        | c :: _ => isAsciiAlpha c
        | [] => false
    | _ => false

/-- Matcher for `(\d+)(?=\s+de\s+[a-zA-Z]+)` (single days, e.g. "10 de mayo").
`\d+` is greedy and a shorter run always fails the lookahead (the next
character would be a digit, not whitespace). -/
def trySingleDay (l : List Char) : Option (Nat × Nat) :=
  let ds := l.takeWhile isDigitC
  if ds.isEmpty then none
  else if lookDeAlpha (l.drop ds.length) then some (natOfDigits ds, ds.length)
  else none

/-- Matcher for `(\d+)-(\d+)(?=\s+de\s+[a-zA-Z]+)` (hyphen ranges,
e.g. "10-15 de mayo"). -/
def tryDayRange (l : List Char) : Option ((Nat × Nat) × Nat) :=
  let d1 := l.takeWhile isDigitC
  if d1.isEmpty then none
  else
    match l.drop d1.length with
    | '-' :: r2 =>
      let d2 := r2.takeWhile isDigitC
      if d2.isEmpty then none
      else if lookDeAlpha (r2.drop d2.length) then
        some ((natOfDigits d1, natOfDigits d2), d1.length + 1 + d2.length)
      else none
    | _ => none

/-- Matcher for `(\d+)\s+a\s+(\d+)(?=\s+de\s+[a-zA-Z]+)` ("9 a 18 de mayo"). -/
def tryARange (l : List Char) : Option ((Nat × Nat) × Nat) :=
  let d1 := l.takeWhile isDigitC
  if d1.isEmpty then none
  else
    let r1 := l.drop d1.length
    let sp1 := r1.takeWhile isSpaceC
    if sp1.isEmpty then none
    else
      match r1.dropWhile isSpaceC with
      | 'a' :: r2 =>
        let sp2 := r2.takeWhile isSpaceC
        if sp2.isEmpty then none
        else
          let d2 := (r2.dropWhile isSpaceC).takeWhile isDigitC
          if d2.isEmpty then none
          else if lookDeAlpha ((r2.dropWhile isSpaceC).drop d2.length) then
            some ((natOfDigits d1, natOfDigits d2),
              d1.length + sp1.length + 1 + sp2.length + d2.length)
          else none
      | _ => none

/-- Matcher for `(\d+)(?=\s+y\s+\d+)` ("10 y 15 de mayo" captures 10). -/
def tryYDay (l : List Char) : Option (Nat × Nat) :=
  let ds := l.takeWhile isDigitC
  if ds.isEmpty then none
  else
    let r1 := l.drop ds.length
    let sp1 := r1.takeWhile isSpaceC
    if sp1.isEmpty then none
    else
      match r1.dropWhile isSpaceC with
      | 'y' :: r2 =>
        let sp2 := r2.takeWhile isSpaceC
        if sp2.isEmpty then none
        else
          match r2.dropWhile isSpaceC with
          | c :: _ => if isDigitC c then some (natOfDigits ds, ds.length) else none
          | [] => none
      | _ => none

/-- Matcher for `del\s+(\d+)\s+al\s+(\d+)` (used with `re.search`). -/
def tryDelAl (l : List Char) : Option (Nat × Nat) :=
  match l with
  | 'd' :: 'e' :: 'l' :: r1 =>
    let sp1 := r1.takeWhile isSpaceC
    if sp1.isEmpty then none
    else
      let d1 := (r1.dropWhile isSpaceC).takeWhile isDigitC
      if d1.isEmpty then none
      else
        let r2 := (r1.dropWhile isSpaceC).drop d1.length
        let sp2 := r2.takeWhile isSpaceC
        if sp2.isEmpty then none
        else
          match r2.dropWhile isSpaceC with
          | 'a' :: 'l' :: r3 =>
            let sp3 := r3.takeWhile isSpaceC
            if sp3.isEmpty then none
            else
              let d2 := (r3.dropWhile isSpaceC).takeWhile isDigitC
              if d2.isEmpty then none
              else some (natOfDigits d1, natOfDigits d2)
          | _ => none
  | _ => none

/-- MONTH_LONG_PATTERNS from utils.py. -/
def monthLongPatterns : List (List Char) :=
  ["todo el mes".toList, "durante todo el mes".toList]

/-- Model of `any(pattern in date_pattern.lower() for pattern in
MONTH_LONG_PATTERNS)`. -/
def monthLongB (l : List Char) : Bool :=
  monthLongPatterns.any (fun p => containsSub (lowerL l) p)

/-- Ordered insertion without duplicates; folding it models Python
`sorted(set(xs))`, the unique strictly increasing enumeration of the
elements of `xs`. -/
def insSorted (n : Nat) : List Nat → List Nat
  | [] => [n]
  | m :: t =>
    if n < m then n :: m :: t
    else if n = m then m :: t
    else m :: insSorted n t

/-- Model of Python `sorted(set(xs))`. -/
def sortedSet (l : List Nat) : List Nat := l.foldr insSorted []

/-- DateProcessor.extract_days_from_range (utils.py lines 74-121): collect day
numbers from the five patterns, then return `sorted(set(...))`. -/
def extractDaysFromRange (l : List Char) : List Nat :=
  if l.isEmpty then []
  else
    let singles := scanFindAll trySingleDay l
    let ranges := scanFindAll tryDayRange l
    let aRanges := scanFindAll tryARange l
    let yDays := scanFindAll tryYDay l
    let delAl :=
      match searchFirst tryDelAl l with
      | some (a, b) => rangeIncl a b
      | none => []
    let monthLong := if monthLongB l then rangeIncl 1 31 else []
    sortedSet (singles ++ (ranges.map (fun p => rangeIncl p.1 p.2)).flatten ++
      (aRanges.map (fun p => rangeIncl p.1 p.2)).flatten ++ yDays ++ delAl ++
      monthLong)

/-- SPANISH_MONTHS_LOWER from utils.py. -/
def spanishMonthsLower : List (List Char) :=
  ["enero".toList, "febrero".toList, "marzo".toList, "abril".toList,
   "mayo".toList, "junio".toList, "julio".toList, "agosto".toList,
   "septiembre".toList, "octubre".toList, "noviembre".toList,
   "diciembre".toList]

/-- Index of the first month (in enero..diciembre order) contained in the
lowered string; models the `for i, month in enumerate(...)` loop with its
`break` in is_future_event and date_sort_key. -/
def firstMonthIdx (l : List Char) : Option Nat :=
  spanishMonthsLower.findIdx? (fun m => containsSub (lowerL l) m)

/-- Day-based fallthrough of DateProcessor.is_future_event (utils.py lines
148-160): keep month-long events, keep events with no extractable days, else
keep when some day is at least the current day. -/
def futureDayCheck (l : List Char) (currentDate : Nat) : Bool :=
  if monthLongB l then true
  else if (extractDaysFromRange l).isEmpty then true
  else (extractDaysFromRange l).any (fun day => decide (currentDate ≤ day))

/-- DateProcessor.is_future_event (utils.py lines 123-160); the current month
(0-indexed, taken from datetime.now() in the source) is passed explicitly. -/
def isFutureEvent (currentMonth : Nat) (l : List Char) (currentDate : Nat) :
    Bool :=
  match firstMonthIdx l with
  | some i =>
    if currentMonth < i then true
    else if i < currentMonth then false
    else futureDayCheck l currentDate
  | none => futureDayCheck l currentDate

/-- DateProcessor.date_sort_key (utils.py lines 162-188); the current month
(0-indexed default when no month is named) is passed explicitly. -/
def dateSortKey (currentMonth : Nat) (l : List Char) : Nat × Nat :=
  let monthIndex :=
    match firstMonthIdx l with
    | some i => i
    | none => currentMonth
  if monthLongB l then (monthIndex, 0)
  else
    match extractDaysFromRange l with
    | [] => (monthIndex, 100)
    | d :: rest => (monthIndex, rest.foldl Nat.min d)

/-- String of the form "<d> de <month m>". -/
def dayDeMonthStr (d m : Nat) : List Char :=
  Nat.toDigits 10 d ++ " de ".toList ++ spanishMonthsLower.getD m []

/-! Helper lemmas about `insSorted` and `sortedSet`. -/

theorem mem_insSorted {x n : Nat} : ∀ {l : List Nat},
    x ∈ insSorted n l → x = n ∨ x ∈ l := by
  intro l
  induction l with
  | nil => intro h; simp [insSorted] at h; exact Or.inl h
  | cons m t ih =>
    intro h
    simp only [insSorted] at h
    by_cases h1 : n < m
    · simp [h1] at h
      rcases h with h | h | h
      · exact Or.inl h
      · exact Or.inr (by simp [h])
      · exact Or.inr (by simp [h])
    · by_cases h2 : n = m
      · simp [h1, h2] at h
        rcases h with h | h
        · exact Or.inr (by simp [h])
        · exact Or.inr (by simp [h])
      · simp [h1, h2] at h
        rcases h with h | h
        · exact Or.inr (by simp [h])
        · rcases ih h with h3 | h3
          · exact Or.inl h3
          · exact Or.inr (by simp [h3])

theorem pairwise_insSorted {n : Nat} : ∀ {l : List Nat},
    List.Pairwise (· < ·) l → List.Pairwise (· < ·) (insSorted n l) := by
  intro l
  induction l with
  | nil => intro _; simp [insSorted]
  | cons m t ih =>
    intro h
    cases h with
    | cons hm ht =>
      simp only [insSorted]
      by_cases h1 : n < m
      · rw [if_pos h1]
        refine List.Pairwise.cons ?_ (List.Pairwise.cons hm ht)
        intro x hx
        rcases List.mem_cons.mp hx with h2 | h2
        · omega
        · have := hm x h2; omega
      · by_cases h2 : n = m
        · subst h2
          rw [if_neg h1, if_pos rfl]
          exact List.Pairwise.cons hm ht
        · rw [if_neg h1, if_neg h2]
          refine List.Pairwise.cons ?_ (ih ht)
          intro x hx
          rcases mem_insSorted hx with h3 | h3
          · omega
          · exact hm x h3

theorem sortedSet_pairwise (l : List Nat) :
    List.Pairwise (· < ·) (sortedSet l) := by
  induction l with
  | nil => simp [sortedSet]
  | cons n t ih => exact pairwise_insSorted ih

/-- Claim C9: for every input string, DateProcessor.extract_days_from_range
returns a strictly increasing list of integers with no duplicates (strictly
increasing pairwise order implies both), and it returns the empty list for
the empty string. -/
theorem extractDaysFromRange_strictly_increasing :
    (∀ l : List Char, List.Pairwise (· < ·) (extractDaysFromRange l)) ∧
    extractDaysFromRange [] = [] := by
  constructor
  · intro l
    by_cases h : l.isEmpty
    · simp [extractDaysFromRange, h]
    · simp only [extractDaysFromRange, h, if_false]
      exact sortedSet_pairwise _
  · rfl

/-- Characterization of the day-based fallthrough of is_future_event. -/
theorem futureDayCheck_iff (l : List Char) (d : Nat) :
    futureDayCheck l d = true ↔
      (monthLongB l = true ∨ extractDaysFromRange l = [] ∨
       ∃ k ∈ extractDaysFromRange l, d ≤ k) := by
  unfold futureDayCheck
  by_cases h1 : monthLongB l
  · simp [h1]
  · by_cases h2 : (extractDaysFromRange l).isEmpty
    · simp [h1, h2, List.isEmpty_iff.mp h2]
    · simp only [h1, h2, if_false, Bool.false_eq_true, false_or]
      rw [List.any_eq_true]
      simp only [decide_eq_true_eq]
      constructor
      · intro ⟨k, hk1, hk2⟩; exact Or.inr ⟨k, hk1, hk2⟩
      · intro h
        rcases h with h | ⟨k, hk1, hk2⟩
        · rw [h] at h2; simp at h2
        · exact ⟨k, hk1, hk2⟩

/-- Claim C1 (counterexample): the string "1 de junio y 2 de marzo" contains
a Spanish month name (junio, index 5) strictly later than the current month
May (index 4), yet is_future_event returns False, because the month
comparison is driven by the first month in enero..diciembre list order that
occurs anywhere in the string (here marzo, index 2 < 4). -/
theorem isFutureEvent_later_month_counterexample :
    (∃ i, 4 < i ∧ i < 12 ∧
      containsSub (lowerL ("1 de junio y 2 de marzo".toList))
        (spanishMonthsLower.getD i []) = true) ∧
    isFutureEvent 4 ("1 de junio y 2 de marzo".toList) 15 = false :=
  ⟨⟨5, by decide, by decide, by decide⟩, by decide⟩

/-- Claim C1 (amended): is_future_event returns True exactly when the first
month (in enero..diciembre list order) contained in the string is later than
the current month, or when that first contained month is the current month or
no month is contained and the day rule holds (month-long phrase present, or
no day numbers extractable, or some extracted day is at least the current
day); in particular is_future_event("10 de mayo", 15) = False and
is_future_event("20 de mayo", 15) = True when the current month is May. -/
theorem isFutureEvent_first_month_characterization :
    (∀ cm : Nat, ∀ l : List Char, ∀ d : Nat,
      isFutureEvent cm l d = true ↔
        ((∃ i, firstMonthIdx l = some i ∧ cm < i) ∨
         ((firstMonthIdx l = none ∨ firstMonthIdx l = some cm) ∧
          (monthLongB l = true ∨ extractDaysFromRange l = [] ∨
           ∃ k ∈ extractDaysFromRange l, d ≤ k)))) ∧
    isFutureEvent 4 ("10 de mayo".toList) 15 = false ∧
    isFutureEvent 4 ("20 de mayo".toList) 15 = true := by
  refine ⟨?_, by decide, by decide⟩
  intro cm l d
  have hfd := futureDayCheck_iff l d
  unfold isFutureEvent
  cases h : firstMonthIdx l with
  | none =>
    constructor
    · intro hd; exact Or.inr ⟨Or.inl (by simp), hfd.mp hd⟩
    · intro hd
      rcases hd with ⟨i, hi, _⟩ | ⟨_, hd⟩
      · cases hi
      · exact hfd.mpr hd
  | some i =>
    by_cases h1 : cm < i
    · simp only [h1, if_true, true_iff]
      exact Or.inl ⟨i, rfl, h1⟩
    · by_cases h2 : i < cm
      · simp only [h1, h2, if_true, if_false]
        constructor
        · intro hd; cases hd
        · intro hd
          rcases hd with ⟨j, hj, hcj⟩ | ⟨hj, _⟩
          · injection hj with hj; omega
          · rcases hj with hj | hj
            · cases hj
            · injection hj with hj; omega
      · have h3 : i = cm := by omega
        subst h3
        simp only [h1, h2, if_false]
        constructor
        · intro hd; exact Or.inr ⟨Or.inr (by simp), hfd.mp hd⟩
        · intro hd
          rcases hd with ⟨j, hj, hcj⟩ | ⟨_, hd⟩
          · injection hj with hj; omega
          · exact hfd.mpr hd

set_option maxRecDepth 100000 in
/-- Core facts about strings of the form "<d> de <month>": the first
contained month is the named one, they contain no month-long phrase, and the
extracted day list is exactly [d]. -/
theorem dayDeMonthFacts : ∀ d, d < 32 → ∀ m, m < 12 →
    (firstMonthIdx (dayDeMonthStr d m) = some m ∧
     monthLongB (dayDeMonthStr d m) = false ∧
     extractDaysFromRange (dayDeMonthStr d m) = [d]) := by decide

/-- Claim C2: date_sort_key maps "<d> de <month m>" to (m, d); any string
containing a whole-month phrase gets second component 0 (hence orders before
any dated string of the same month, whose day is at least 1); any string
from which no day can be extracted gets second component 100 (hence orders
after any dated string, whose day is at most 31). -/
theorem dateSortKey_spec :
    (∀ cm d m, d < 32 → m < 12 →
      dateSortKey cm (dayDeMonthStr d m) = (m, d)) ∧
    (∀ cm : Nat, ∀ l : List Char, monthLongB l = true →
      (dateSortKey cm l).2 = 0) ∧
    (∀ cm : Nat, ∀ l : List Char, monthLongB l = false →
      extractDaysFromRange l = [] → (dateSortKey cm l).2 = 100) ∧
    (∀ cm d m, d < 32 → 1 ≤ d → m < 12 → ∀ lw : List Char,
      monthLongB lw = true →
      (dateSortKey cm lw).2 < (dateSortKey cm (dayDeMonthStr d m)).2) ∧
    (∀ cm d m, d < 32 → m < 12 → ∀ ln : List Char, monthLongB ln = false →
      extractDaysFromRange ln = [] →
      (dateSortKey cm (dayDeMonthStr d m)).2 < (dateSortKey cm ln).2) := by
  have key : ∀ cm d m, d < 32 → m < 12 →
      dateSortKey cm (dayDeMonthStr d m) = (m, d) := by
    intro cm d m hd hm
    obtain ⟨f1, f2, f3⟩ := dayDeMonthFacts d hd m hm
    simp [dateSortKey, f1, f2, f3]
  have wml : ∀ cm : Nat, ∀ l : List Char, monthLongB l = true →
      (dateSortKey cm l).2 = 0 := by
    intro cm l h; simp [dateSortKey, h]
  have nod : ∀ cm : Nat, ∀ l : List Char, monthLongB l = false →
      extractDaysFromRange l = [] → (dateSortKey cm l).2 = 100 := by
    intro cm l h1 h2; simp [dateSortKey, h1, h2]
  refine ⟨key, wml, nod, ?_, ?_⟩
  · intro cm d m hd hd1 hm lw hw
    rw [wml cm lw hw, key cm d m hd hm]
    simpa using hd1
  · intro cm d m hd hm ln h1 h2
    rw [nod cm ln h1 h2, key cm d m hd hm]
    simp only []
    omega

/-- Witness for dateSortKey_spec: concrete instances discharging its
hypotheses. -/
theorem dateSortKey_spec_witness :
    dateSortKey 4 (dayDeMonthStr 10 4) = (4, 10) ∧
    (dateSortKey 4 ("todo el mes de mayo".toList)).2 = 0 ∧
    (dateSortKey 4 ("fecha desconocida".toList)).2 = 100 :=
  ⟨dateSortKey_spec.1 4 10 4 (by decide) (by decide),
   dateSortKey_spec.2.1 4 ("todo el mes de mayo".toList) (by decide),
   dateSortKey_spec.2.2.1 4 ("fecha desconocida".toList) (by decide)
     (by decide)⟩

/-! Text processing: TextProcessor.clean_title and its helpers. -/

/-- The double-quote character. -/
def dq : Char := Char.ofNat 34

/-- The single-quote (apostrophe) character. -/
def apos : Char := Char.ofNat 39

/-- Worker for `subAll`, structurally recursive on fuel (initialised to the
length of the list, and every successful match consumes at least one
character, so it never runs out). -/
def subAllAux (tryM : List Char → Option (List Char × Nat)) :
    Nat → List Char → List Char
  | 0, l => l
  | _, [] => []
  | fuel + 1, c :: rest =>
    match tryM (c :: rest) with
    | some (rep, k) => rep ++ subAllAux tryM fuel (rest.drop (k - 1))
    | none => c :: subAllAux tryM fuel rest

/-- Generic model of a global `re.sub`: at each position try a match; on
success emit the replacement and resume after the `k` consumed characters;
on failure keep the character and advance, exactly as the regex engine
scans non-overlapping matches left to right. -/
def subAll (tryM : List Char → Option (List Char × Nat)) (l : List Char) :
    List Char :=
  subAllAux tryM l.length l

/-- Matcher for a literal pattern with a fixed replacement (used for
`str.replace` and for literal `re.sub` patterns). -/
def tryLit (pat rep : List Char) (l : List Char) : Option (List Char × Nat) :=
  if !pat.isEmpty && pat.isPrefixOf l then some (rep, pat.length) else none

/-- Model of Python `str.replace(pat, rep)` (all non-overlapping occurrences,
left to right). -/
def replaceAllSub (pat rep l : List Char) : List Char :=
  subAll (tryLit pat rep) l

/-- Model of `re.sub(r'^(\d+\s+de\s+[a-zA-Z]+\s+)', '', title)` (clean_title,
utils.py line 339): each greedy piece is followed by a literal of a different
character class, so the scan is deterministic; the trailing `\s+` is greedy
with nothing after it. -/
def subLeadingDayDe (l : List Char) : List Char :=
  let ds := l.takeWhile isDigitC
  if ds.isEmpty then l
  else
    let r1 := l.drop ds.length
    let sp1 := r1.takeWhile isSpaceC
    if sp1.isEmpty then l
    else
      match r1.dropWhile isSpaceC with
      | 'd' :: 'e' :: r2 =>
        let sp2 := r2.takeWhile isSpaceC
        if sp2.isEmpty then l
        else
          let r3 := r2.dropWhile isSpaceC
          let al := r3.takeWhile isAsciiAlpha
          if al.isEmpty then l
          else
            let r4 := r3.drop al.length
            let sp3 := r4.takeWhile isSpaceC
            if sp3.isEmpty then l else r4.dropWhile isSpaceC
      | _ => l

/-- Model of `re.sub(r'^Hasta el \d+ de [a-zA-Z]+', '', title)` (first
DATE_PREFIX_PATTERNS entry; the spaces in the pattern are literal single
spaces). -/
def subHastaEl (l : List Char) : List Char :=
  if ("Hasta el ".toList).isPrefixOf l then
    let r1 := l.drop 9
    let ds := r1.takeWhile isDigitC
    if ds.isEmpty then l
    else
      let r2 := r1.drop ds.length
      if (" de ".toList).isPrefixOf r2 then
        let r3 := r2.drop 4
        let al := r3.takeWhile isAsciiAlpha
        if al.isEmpty then l else r3.drop al.length
      else l
  else l

/-- Model of `re.sub(r'^Durante todo el mes de [a-zA-Z]+', '', title)`
(second DATE_PREFIX_PATTERNS entry). -/
def subDuranteTodo (l : List Char) : List Char :=
  if ("Durante todo el mes de ".toList).isPrefixOf l then
    let r1 := l.drop 23
    let al := r1.takeWhile isAsciiAlpha
    if al.isEmpty then l else r1.drop al.length
  else l

/-- Model of `re.sub(r'^\d+ a \d+ de [a-zA-Z]+', '', title)` (third
DATE_PREFIX_PATTERNS entry). -/
def subRangeA (l : List Char) : List Char :=
  let d1 := l.takeWhile isDigitC
  if d1.isEmpty then l
  else
    match l.drop d1.length with
    | ' ' :: 'a' :: ' ' :: r1 =>
      let d2 := r1.takeWhile isDigitC
      if d2.isEmpty then l
      else
        let r2 := r1.drop d2.length
        if (" de ".toList).isPrefixOf r2 then
          let r3 := r2.drop 4
          let al := r3.takeWhile isAsciiAlpha
          if al.isEmpty then l else r3.drop al.length
        else l
    | _ => l

/-- Model of `re.sub(r'^\d+-\d+ de [a-zA-Z]+', '', title)` (fourth
DATE_PREFIX_PATTERNS entry). -/
def subRangeDash (l : List Char) : List Char :=
  let d1 := l.takeWhile isDigitC
  if d1.isEmpty then l
  else
    match l.drop d1.length with
    | '-' :: r1 =>
      let d2 := r1.takeWhile isDigitC
      if d2.isEmpty then l
      else
        let r2 := r1.drop d2.length
        if (" de ".toList).isPrefixOf r2 then
          let r3 := r2.drop 4
          let al := r3.takeWhile isAsciiAlpha
          if al.isEmpty then l else r3.drop al.length
        else l
    | _ => l

/-- Model of `re.sub(r'^Ver evento\s+', '', title)` (utils.py line 363). -/
def subVerEvento (l : List Char) : List Char :=
  if ("Ver evento".toList).isPrefixOf l then
    let r1 := l.drop 10
    let sp := r1.takeWhile isSpaceC
    if sp.isEmpty then l else r1.dropWhile isSpaceC
  else l

/-- Model of `re.sub(r'^[:\-–—]+\s*', '', title)` (utils.py line 369). -/
def subLeadingColonsDashes (l : List Char) : List Char :=
  let punct := fun c : Char => c == ':' || c == '-' || c == '–' || c == '—'
  match l with
  | [] => []
  | c :: _ =>
    if punct c then (l.dropWhile punct).dropWhile isSpaceC else l

/-- Matcher for `([a-zA-Z])"([a-zA-Z])` with replacement `\1 \2` (the quote
becomes a space; _apply_formatting_fixes, utils.py line 416). -/
def tryQuoteMidSpace (l : List Char) : Option (List Char × Nat) :=
  match l with
  | c1 :: c2 :: c3 :: _ =>
    if isAsciiAlpha c1 && c2 == dq && isAsciiAlpha c3 then
      some ([c1, ' ', c3], 3)
    else none
  | _ => none

/-- Model of `re.sub(r'^["\']\s*', '', text)` (utils.py line 419). -/
def subLeadingQuote (l : List Char) : List Char :=
  match l with
  | [] => []
  | c :: rest => if c == dq || c == apos then rest.dropWhile isSpaceC else l

/-- Model of `re.sub(r'\s*["\']$', '', text)` (utils.py line 420): a quote as
final character is removed together with the whitespace before it. -/
def subTrailingQuote (l : List Char) : List Char :=
  match l.getLast? with
  | some c =>
    if c == dq || c == apos then (l.dropLast.reverse.dropWhile isSpaceC).reverse
    else l
  | none => l

/-- Matcher for `\s{2,}` with replacement a single space (utils.py line
421). -/
def tryMultiSpace (l : List Char) : Option (List Char × Nat) :=
  match l with
  | c1 :: c2 :: _ =>
    if isSpaceC c1 && isSpaceC c2 then some ([' '], (l.takeWhile isSpaceC).length)
    else none
  | _ => none

/-- Matcher for `([a-z])([A-Z])` with replacement `\1 \2` (utils.py line
424). -/
def tryLowerUpper (l : List Char) : Option (List Char × Nat) :=
  match l with
  | c1 :: c2 :: _ =>
    if isLowerAlpha c1 && isUpperAlpha c2 then some ([c1, ' ', c2], 2) else none
  | _ => none

/-- Matcher for `([a-zA-Z])\.([A-Z])` with replacement `\1. \2` (utils.py
line 427). -/
def tryDotUpper (l : List Char) : Option (List Char × Nat) :=
  match l with
  | c1 :: c2 :: c3 :: _ =>
    if isAsciiAlpha c1 && c2 == '.' && isUpperAlpha c3 then
      some ([c1, '.', ' ', c3], 3)
    else none
  | _ => none

/-- Matcher for `([a-zA-Z]),([a-zA-Z])` with replacement `\1, \2` (utils.py
line 428). -/
def tryCommaAlphaBoth (l : List Char) : Option (List Char × Nat) :=
  match l with
  | c1 :: c2 :: c3 :: _ =>
    if isAsciiAlpha c1 && c2 == ',' && isAsciiAlpha c3 then
      some ([c1, ',', ' ', c3], 3)
    else none
  | _ => none

/-- Matcher for `([a-zA-Z])"([a-zA-Z])` with replacement `\1" \2` (the quote
is kept; utils.py line 429). -/
def tryQuoteMidKeep (l : List Char) : Option (List Char × Nat) :=
  match l with
  | c1 :: c2 :: c3 :: _ =>
    if isAsciiAlpha c1 && c2 == dq && isAsciiAlpha c3 then
      some ([c1, dq, ' ', c3], 3)
    else none
  | _ => none

/-- Matcher for `<lit>([A-Z])` with replacement `<lit> \1` (prefix fixes for
la/el/de/del/un, utils.py lines 432-434). -/
def tryLitUpper (lit : List Char) (l : List Char) : Option (List Char × Nat) :=
  if lit.isPrefixOf l then
    match l.drop lit.length with
    | u :: _ =>
      if isUpperAlpha u then some (lit ++ [' ', u], lit.length + 1) else none
    | [] => none
  else none

/-- Alternation `(?:el|la|los|las)\s+` tried in pattern order, each branch
requiring at least one following whitespace (backtracking into the
alternation as the regex engine does). -/
def findArtAlt : List (List Char) → List Char → Option (List Char)
  | [], _ => none
  | a :: as, r =>
    if a.isPrefixOf r && !((r.drop a.length).takeWhile isSpaceC).isEmpty then
      some ((r.drop a.length).dropWhile isSpaceC)
    else findArtAlt as r

/-- Model of `re.sub(r'^en\s+(?:el|la|los|las)\s+', '', text)` (utils.py line
437). -/
def subEnArt (l : List Char) : List Char :=
  if ("en".toList).isPrefixOf l then
    let r1 := l.drop 2
    if (r1.takeWhile isSpaceC).isEmpty then l
    else
      match findArtAlt ["el".toList, "la".toList, "los".toList, "las".toList]
          (r1.dropWhile isSpaceC) with
      | some rest => rest
      | none => l
  else l

/-- Model of `re.sub(r'^en\s+', '', text)` (utils.py line 438). -/
def subEnPlain (l : List Char) : List Char :=
  if ("en".toList).isPrefixOf l then
    let r1 := l.drop 2
    if (r1.takeWhile isSpaceC).isEmpty then l else r1.dropWhile isSpaceC
  else l

/-- Model of `re.sub(r'<lit>$', '', text)` for a literal pattern: remove the
literal when it is the final segment of the string. -/
def subSuffixLit (lit l : List Char) : List Char :=
  if decide (lit.length ≤ l.length) && l.drop (l.length - lit.length) == lit
  then l.take (l.length - lit.length)
  else l

/-- Worker for `subFromLit`: position of the first occurrence of the literal
from which `<lit>.*$` matches; the Bool records whether a final newline is
kept (the `$` of a newline-free pattern matches at the end of the string or
just before a trailing newline, and `.` does not match newlines). -/
def subFromLitAux (lit : List Char) : List Char → Option (Nat × Bool)
  | [] => none
  | c :: rest =>
    if lit.isPrefixOf (c :: rest) then
      let tail := (c :: rest).drop lit.length
      if !tail.contains '\n' then some (0, false)
      else if tail.getLast? == some '\n' && !tail.dropLast.contains '\n' then
        some (0, true)
      else (subFromLitAux lit rest).map (fun p => (p.1 + 1, p.2))
    else (subFromLitAux lit rest).map (fun p => (p.1 + 1, p.2))

/-- Model of `re.sub(r'<lit>.*$', '', text)` for a literal start: delete from
the first occurrence of the literal to the end of the line/string. -/
def subFromLit (lit l : List Char) : List Char :=
  match subFromLitAux lit l with
  | some (p, keepNl) => l.take p ++ (if keepNl then ['\n'] else [])
  | none => l

/-- Matcher for the literal substitution `Dr,` to `Dr.` (utils.py line
446). -/
def tryDrComma (l : List Char) : Option (List Char × Nat) :=
  tryLit ("Dr,".toList) ("Dr.".toList) l

/-- Model of Python `str.rstrip(chars)` (drop trailing characters that occur
in the given set). -/
def rstripSet (s : List Char) (l : List Char) : List Char :=
  (l.reverse.dropWhile (fun c => s.any (fun x => x == c))).reverse

/-- TextProcessor._apply_formatting_fixes (utils.py lines 412-449), with the
substitutions applied in source order. -/
def applyFormattingFixes (text : List Char) : List Char :=
  let text := subAll tryQuoteMidSpace text
  let text := subLeadingQuote text
  let text := subTrailingQuote text
  let text := (subAll tryMultiSpace text)
  let text := stripWs text
  let text := subAll tryLowerUpper text
  let text := subAll tryDotUpper text
  let text := subAll tryCommaAlphaBoth text
  let text := subAll tryQuoteMidKeep text
  let text := subAll (tryLitUpper ("la".toList)) text
  let text := subAll (tryLitUpper ("el".toList)) text
  let text := subAll (tryLitUpper ("de".toList)) text
  let text := subAll (tryLitUpper ("del".toList)) text
  let text := subAll (tryLitUpper ("un".toList)) text
  let text := subEnArt text
  let text := subEnPlain text
  let text := subSuffixLit ("el día".toList) text
  let text := subFromLit ("con la banda".toList) text
  let text := subFromLit ("para presentar".toList) text
  let text := subAll tryDrComma text
  rstripSet ['-', ' ', ',', ':'] text

/-- SMALL_WORDS from utils.py (words kept lowercase in titles unless
first). -/
def smallWords : List (List Char) :=
  ["a".toList, "e".toList, "o".toList, "y".toList, "u".toList, "de".toList,
   "la".toList, "el".toList, "del".toList, "los".toList, "las".toList,
   "en".toList, "con".toList, "por".toList, "para".toList, "al".toList,
   "su".toList, "sus".toList, "tu".toList, "tus".toList, "mi".toList,
   "mis".toList, "un".toList, "una".toList, "unos".toList, "unas".toList,
   "lo".toList, "que".toList]

/-- Cased characters on the alphabet handled by the program (ASCII letters
and Spanish accented letters); models Python cased-ness for
`str.isupper`. -/
def isCasedC (c : Char) : Bool :=
  isUpperAlpha c || isLowerAlpha c || accentLower.contains c ||
  accentUpper.contains c

/-- Uppercase (cased) characters on the same alphabet. -/
def isUpperFull (c : Char) : Bool :=
  isUpperAlpha c || accentUpper.contains c

/-- Model of Python `str.isupper`: at least one cased character, and every
cased character uppercase. -/
def pyIsUpper (w : List Char) : Bool :=
  w.any isCasedC && w.all (fun c => !isCasedC c || isUpperFull c)

/-- Model of Python `str.upper` on a single character (ASCII letters and
Spanish accented letters). -/
def toUpperC (c : Char) : Char :=
  if isLowerAlpha c then Char.ofNat (c.toNat - 32)
  else
    match accentLower.findIdx? (fun x => x == c) with
    | some i => accentUpper.getD i c
    | none => c

/-- Model of Python `str.capitalize`: first character uppercased, the rest
lowered. -/
def pyCapitalize (w : List Char) : List Char :=
  match w with
  | [] => []
  | c :: r => toUpperC c :: r.map toLowerC

/-- Worker for `splitWs`, structurally recursive on fuel (initialised to the
length of the list). -/
def splitWsAux : Nat → List Char → List (List Char)
  | 0, _ => []
  | _, [] => []
  | fuel + 1, c :: rest =>
    if isSpaceC c then splitWsAux fuel rest
    else
      let w := (c :: rest).takeWhile (fun x => !isSpaceC x)
      w :: splitWsAux fuel (rest.drop (w.length - 1))

/-- Model of Python `str.split()` (split on whitespace runs, dropping empty
pieces). -/
def splitWs (l : List Char) : List (List Char) :=
  splitWsAux l.length l

/-- TextProcessor._fix_title_capitalization (utils.py lines 384-410). -/
def fixTitleCapitalization (title : List Char) : List Char :=
  List.intercalate [' ']
    (((splitWs title).enum).map (fun p =>
      let i := p.1
      let word := p.2
      if pyIsUpper word && decide (2 < word.length) then pyCapitalize word
      else if smallWords.contains (lowerL word) && decide (0 < i) then
        lowerL word
      else if i == 0 && !pyIsUpper word then pyCapitalize word
      else word))

/-- Leading-colon strip of clean_title (utils.py lines 331-332). -/
def cleanTitleColon (t : List Char) : List Char :=
  if t.head? = some ':' then stripWs (t.drop 1) else t

/-- Date-pattern strip of clean_title (utils.py lines 335-336). -/
def cleanTitleDate (datePattern : Option (List Char)) (t : List Char) :
    List Char :=
  match datePattern with
  | some dp =>
    if !dp.isEmpty && dp.isPrefixOf t then stripWs (t.drop dp.length) else t
  | none => t

/-- Malformed-quote fixes of clean_title (utils.py lines 346-353): the
leading-quote-without-closing case, then the if/elif chain on
startswith/endswith. -/
def cleanTitleQuotes (t : List Char) : List Char :=
  let t :=
    if t.head? = some dq ∧ dq ∉ t.drop 1 then stripWs (t.drop 1)
    else t
  if t.head? = some dq ∧ t.getLast? = some dq then
    stripWs ((t.drop 1).dropLast)
  else if t.head? = some dq then stripWs (t.drop 1)
  else if t.getLast? = some dq then stripWs t.dropLast
  else t

/-- Dangling-quote fix of clean_title (utils.py lines 356-357). -/
def cleanTitleDangling (t : List Char) : List Char :=
  if dq ∈ t ∧ t.count dq = 1 then t.filter (fun c => !(c == dq))
  else t

/-- Unconditional quote removal of clean_title (utils.py line 360),
modelling `title.replace(chr(34), '')`. -/
def removeQuotes (t : List Char) : List Char :=
  t.filter (fun c => !(c == dq))

/-- HTML-entity fixes of clean_title (utils.py line 366). -/
def cleanTitleEntities (t : List Char) : List Char :=
  replaceAllSub ("&quot;".toList) [dq]
    (replaceAllSub ("&amp;".toList) ("&".toList) t)

/-- Specific-title fix of clean_title (utils.py lines 375-376). -/
def cleanTitleSpecific (t : List Char) : List Char :=
  if ("1 a 4 de mayo L.E.V. Festival".toList).isPrefixOf t then
    "L.E.V. Festival".toList
  else t

/-- TextProcessor.clean_title (utils.py lines 314-382).  The optional
arguments `date_pattern` (default None) and `fix_capitalization` (default
False) are passed explicitly; the pipeline applies the source's steps in
order. -/
def cleanTitle (title : List Char) (datePattern : Option (List Char))
    (fixCapitalization : Bool) : List Char :=
  if title = [] ∨ title = [':'] then []
  else
    let t := cleanTitleSpecific (applyFormattingFixes
      (subLeadingColonsDashes (cleanTitleEntities (subVerEvento
        (removeQuotes (cleanTitleDangling (cleanTitleQuotes
          (subRangeDash (subRangeA (subDuranteTodo (subHastaEl
            (subLeadingDayDe (cleanTitleDate datePattern
              (cleanTitleColon title))))))))))))))
    if fixCapitalization then fixTitleCapitalization t else t

/-! Character-class facts used by the clean_title idempotence analysis. -/

theorem isLowerAlpha_toNat {c : Char} (h : isLowerAlpha c = true) :
    97 ≤ c.toNat ∧ c.toNat ≤ 122 := by
  simp only [isLowerAlpha, Bool.and_eq_true, decide_eq_true_eq] at h
  exact h

theorem lower_beq_false {c : Char} (h : isLowerAlpha c = true) (d : Char)
    (hd : d.toNat < 97 ∨ 122 < d.toNat) : (c == d) = false := by
  have hc := isLowerAlpha_toNat h
  rw [beq_eq_false_iff_ne]
  intro he
  subst he
  omega

theorem beq_lower_false {c : Char} (h : isLowerAlpha c = true) (d : Char)
    (hd : d.toNat < 97 ∨ 122 < d.toNat) : (d == c) = false := by
  have hc := isLowerAlpha_toNat h
  rw [beq_eq_false_iff_ne]
  intro he
  subst he
  omega

theorem lower_not_space {c : Char} (h : isLowerAlpha c = true) :
    isSpaceC c = false := by
  have hc := isLowerAlpha_toNat h
  simp only [isSpaceC, Bool.or_eq_false_iff, beq_eq_false_iff_ne, ne_eq]
  omega

theorem lower_not_digit {c : Char} (h : isLowerAlpha c = true) :
    isDigitC c = false := by
  have hc := isLowerAlpha_toNat h
  have : ¬ c.toNat ≤ 57 := by omega
  simp [isDigitC, this]

theorem lower_not_upper {c : Char} (h : isLowerAlpha c = true) :
    isUpperAlpha c = false := by
  have hc := isLowerAlpha_toNat h
  have : ¬ c.toNat ≤ 90 := by omega
  simp [isUpperAlpha, this]

theorem not_mem_of_all_lower {l : List Char} {x : Char}
    (hP : ∀ c ∈ l, isLowerAlpha c = true) (hx : isLowerAlpha x = false) :
    x ∉ l := by
  intro hmem
  rw [hP x hmem] at hx
  cases hx

/-- A pattern containing a non-lowercase character is never a prefix of an
all-lowercase string. -/
theorem isPrefixOf_false_of_not_lower {pat l : List Char}
    (hP : ∀ c ∈ l, isLowerAlpha c = true) {x : Char} (hx : x ∈ pat)
    (hxl : isLowerAlpha x = false) : pat.isPrefixOf l = false := by
  cases hp : pat.isPrefixOf l with
  | false => rfl
  | true =>
    have hpre : pat <+: l := List.isPrefixOf_iff_prefix.mp hp
    have : x ∈ l := hpre.sublist.subset hx
    rw [hP x this] at hxl
    cases hxl

theorem takeWhile_isEmpty_of_false {p : Char → Bool} {l : List Char}
    (h : ∀ c ∈ l, p c = false) : (l.takeWhile p).isEmpty = true := by
  cases l with
  | nil => rfl
  | cons c rest =>
    rw [List.takeWhile_cons, h c (List.mem_cons_self c rest)]
    rfl

theorem dropWhile_eq_self_of_false {p : Char → Bool} {l : List Char}
    (h : ∀ c ∈ l, p c = false) : l.dropWhile p = l := by
  cases l with
  | nil => rfl
  | cons c rest =>
    rw [List.dropWhile_cons, h c (List.mem_cons_self c rest)]
    simp

theorem getLast?_mem_self : ∀ {l : List Char} {a : Char},
    l.getLast? = some a → a ∈ l := by
  intro l
  induction l with
  | nil => intro a h; cases h
  | cons c rest ih =>
    intro a h
    cases rest with
    | nil =>
      simp only [List.getLast?_singleton, Option.some.injEq] at h
      simp [h]
    | cons d r =>
      rw [List.getLast?_cons_cons] at h
      exact List.mem_cons_of_mem c (ih h)

/-! Identity of each clean_title stage on all-lowercase-letter strings. -/

theorem subAllAux_id_of_none {tryM : List Char → Option (List Char × Nat)}
    (hnone : ∀ l : List Char, (∀ c ∈ l, isLowerAlpha c = true) → tryM l = none) :
    ∀ fuel (l : List Char), (∀ c ∈ l, isLowerAlpha c = true) →
      subAllAux tryM fuel l = l := by
  intro fuel
  induction fuel with
  | zero =>
    intro l _
    cases l with
    | nil => rfl
    | cons c rest => rfl
  | succ n ih =>
    intro l hP
    cases l with
    | nil => rfl
    | cons c rest =>
      simp only [subAllAux, hnone (c :: rest) hP]
      exact congrArg (c :: ·)
        (ih rest (fun x hx => hP x (List.mem_cons_of_mem c hx)))

theorem subAll_id_of_none {tryM : List Char → Option (List Char × Nat)}
    (hnone : ∀ l : List Char, (∀ c ∈ l, isLowerAlpha c = true) → tryM l = none)
    (l : List Char) (hP : ∀ c ∈ l, isLowerAlpha c = true) :
    subAll tryM l = l :=
  subAllAux_id_of_none hnone l.length l hP

theorem tryQuoteMidSpace_none (l : List Char)
    (hP : ∀ c ∈ l, isLowerAlpha c = true) : tryQuoteMidSpace l = none := by
  match l with
  | [] => rfl
  | [c1] => rfl
  | [c1, c2] => rfl
  | c1 :: c2 :: c3 :: r =>
    have h2 : (c2 == dq) = false :=
      lower_beq_false (hP c2 (by simp)) dq (by decide)
    simp [tryQuoteMidSpace, h2]

theorem tryMultiSpace_none (l : List Char)
    (hP : ∀ c ∈ l, isLowerAlpha c = true) : tryMultiSpace l = none := by
  match l with
  | [] => rfl
  | [c1] => rfl
  | c1 :: c2 :: r =>
    have h1 : isSpaceC c1 = false := lower_not_space (hP c1 (by simp))
    simp [tryMultiSpace, h1]

theorem tryLowerUpper_none (l : List Char)
    (hP : ∀ c ∈ l, isLowerAlpha c = true) : tryLowerUpper l = none := by
  match l with
  | [] => rfl
  | [c1] => rfl
  | c1 :: c2 :: r =>
    have h2 : isUpperAlpha c2 = false := lower_not_upper (hP c2 (by simp))
    simp [tryLowerUpper, h2]

theorem tryDotUpper_none (l : List Char)
    (hP : ∀ c ∈ l, isLowerAlpha c = true) : tryDotUpper l = none := by
  match l with
  | [] => rfl
  | [c1] => rfl
  | [c1, c2] => rfl
  | c1 :: c2 :: c3 :: r =>
    have h2 : (c2 == '.') = false :=
      lower_beq_false (hP c2 (by simp)) '.' (by decide)
    simp [tryDotUpper, h2]

theorem tryCommaAlphaBoth_none (l : List Char)
    (hP : ∀ c ∈ l, isLowerAlpha c = true) : tryCommaAlphaBoth l = none := by
  match l with
  | [] => rfl
  | [c1] => rfl
  | [c1, c2] => rfl
  | c1 :: c2 :: c3 :: r =>
    have h2 : (c2 == ',') = false :=
      lower_beq_false (hP c2 (by simp)) ',' (by decide)
    simp [tryCommaAlphaBoth, h2]

theorem tryQuoteMidKeep_none (l : List Char)
    (hP : ∀ c ∈ l, isLowerAlpha c = true) : tryQuoteMidKeep l = none := by
  match l with
  | [] => rfl
  | [c1] => rfl
  | [c1, c2] => rfl
  | c1 :: c2 :: c3 :: r =>
    have h2 : (c2 == dq) = false :=
      lower_beq_false (hP c2 (by simp)) dq (by decide)
    simp [tryQuoteMidKeep, h2]

theorem tryLitUpper_none (lit : List Char) (l : List Char)
    (hP : ∀ c ∈ l, isLowerAlpha c = true) : tryLitUpper lit l = none := by
  unfold tryLitUpper
  cases hp : lit.isPrefixOf l with
  | false => simp [hp]
  | true =>
    simp only [hp, if_true]
    cases heq : l.drop lit.length with
    | nil => rfl
    | cons u tail =>
      have hu : u ∈ l :=
        List.mem_of_mem_drop (heq ▸ List.mem_cons_self u tail)
      simp [lower_not_upper (hP u hu)]

theorem tryLit_none_of_not_lower {pat rep : List Char} {x : Char}
    (hx : x ∈ pat) (hxl : isLowerAlpha x = false) (l : List Char)
    (hP : ∀ c ∈ l, isLowerAlpha c = true) : tryLit pat rep l = none := by
  unfold tryLit
  rw [isPrefixOf_false_of_not_lower hP hx hxl]
  simp

theorem tryDrComma_none (l : List Char)
    (hP : ∀ c ∈ l, isLowerAlpha c = true) : tryDrComma l = none :=
  tryLit_none_of_not_lower (x := 'D') (by decide) (by decide) l hP

theorem head?_ne_of_lower {l : List Char}
    (hP : ∀ c ∈ l, isLowerAlpha c = true) (d : Char)
    (hd : d.toNat < 97 ∨ 122 < d.toNat) : l.head? ≠ some d := by
  cases l with
  | nil => simp
  | cons c rest =>
    have hc := isLowerAlpha_toNat (hP c (List.mem_cons_self c rest))
    simp only [List.head?_cons, ne_eq, Option.some.injEq]
    intro he
    subst he
    omega

theorem getLast?_ne_of_lower {l : List Char}
    (hP : ∀ c ∈ l, isLowerAlpha c = true) (d : Char)
    (hd : d.toNat < 97 ∨ 122 < d.toNat) : l.getLast? ≠ some d := by
  intro he
  have hmem := getLast?_mem_self he
  have hc := isLowerAlpha_toNat (hP d hmem)
  omega

theorem subLeadingDayDe_id {l : List Char}
    (hP : ∀ c ∈ l, isLowerAlpha c = true) : subLeadingDayDe l = l := by
  have h : (l.takeWhile isDigitC).isEmpty = true :=
    takeWhile_isEmpty_of_false (fun c hc => lower_not_digit (hP c hc))
  simp [subLeadingDayDe, h]

theorem subHastaEl_id {l : List Char}
    (hP : ∀ c ∈ l, isLowerAlpha c = true) : subHastaEl l = l := by
  have h : ("Hasta el ".toList).isPrefixOf l = false :=
    isPrefixOf_false_of_not_lower hP (x := 'H') (by decide) (by decide)
  unfold subHastaEl
  rw [h]
  simp

theorem subDuranteTodo_id {l : List Char}
    (hP : ∀ c ∈ l, isLowerAlpha c = true) : subDuranteTodo l = l := by
  have h : ("Durante todo el mes de ".toList).isPrefixOf l = false :=
    isPrefixOf_false_of_not_lower hP (x := 'D') (by decide) (by decide)
  unfold subDuranteTodo
  rw [h]
  simp

theorem subRangeA_id {l : List Char}
    (hP : ∀ c ∈ l, isLowerAlpha c = true) : subRangeA l = l := by
  have h : (l.takeWhile isDigitC).isEmpty = true :=
    takeWhile_isEmpty_of_false (fun c hc => lower_not_digit (hP c hc))
  simp [subRangeA, h]

theorem subRangeDash_id {l : List Char}
    (hP : ∀ c ∈ l, isLowerAlpha c = true) : subRangeDash l = l := by
  have h : (l.takeWhile isDigitC).isEmpty = true :=
    takeWhile_isEmpty_of_false (fun c hc => lower_not_digit (hP c hc))
  simp [subRangeDash, h]

theorem subVerEvento_id {l : List Char}
    (hP : ∀ c ∈ l, isLowerAlpha c = true) : subVerEvento l = l := by
  have h : ("Ver evento".toList).isPrefixOf l = false :=
    isPrefixOf_false_of_not_lower hP (x := 'V') (by decide) (by decide)
  unfold subVerEvento
  rw [h]
  simp

theorem subLeadingColonsDashes_id {l : List Char}
    (hP : ∀ c ∈ l, isLowerAlpha c = true) : subLeadingColonsDashes l = l := by
  cases l with
  | nil => rfl
  | cons c rest =>
    have hc := hP c (List.mem_cons_self c rest)
    have h1 : (c == ':') = false := lower_beq_false hc ':' (by decide)
    have h2 : (c == '-') = false := lower_beq_false hc '-' (by decide)
    have h3 : (c == '–') = false := lower_beq_false hc '–' (by decide)
    have h4 : (c == '—') = false := lower_beq_false hc '—' (by decide)
    simp [subLeadingColonsDashes, h1, h2, h3, h4]

theorem subLeadingQuote_id {l : List Char}
    (hP : ∀ c ∈ l, isLowerAlpha c = true) : subLeadingQuote l = l := by
  cases l with
  | nil => rfl
  | cons c rest =>
    have hc := hP c (List.mem_cons_self c rest)
    have h1 : (c == dq) = false := lower_beq_false hc dq (by decide)
    have h2 : (c == apos) = false := lower_beq_false hc apos (by decide)
    simp [subLeadingQuote, h1, h2]

theorem subTrailingQuote_id {l : List Char}
    (hP : ∀ c ∈ l, isLowerAlpha c = true) : subTrailingQuote l = l := by
  cases hg : l.getLast? with
  | none => simp [subTrailingQuote, hg]
  | some a =>
    have ha := hP a (getLast?_mem_self hg)
    have h1 : (a == dq) = false := lower_beq_false ha dq (by decide)
    have h2 : (a == apos) = false := lower_beq_false ha apos (by decide)
    simp [subTrailingQuote, hg, h1, h2]

theorem stripWs_id {l : List Char}
    (hP : ∀ c ∈ l, isLowerAlpha c = true) : stripWs l = l := by
  have h1 : l.dropWhile isSpaceC = l :=
    dropWhile_eq_self_of_false (fun c hc => lower_not_space (hP c hc))
  have h2 : l.reverse.dropWhile isSpaceC = l.reverse :=
    dropWhile_eq_self_of_false
      (fun c hc => lower_not_space (hP c (List.mem_reverse.mp hc)))
  simp [stripWs, h1, h2]

theorem subEnArt_id {l : List Char}
    (hP : ∀ c ∈ l, isLowerAlpha c = true) : subEnArt l = l := by
  cases hp : ("en".toList).isPrefixOf l with
  | false =>
    unfold subEnArt
    rw [hp]
    simp
  | true =>
    have h : ((l.drop 2).takeWhile isSpaceC).isEmpty = true :=
      takeWhile_isEmpty_of_false
        (fun c hc => lower_not_space (hP c (List.mem_of_mem_drop hc)))
    unfold subEnArt
    rw [hp]
    simp only [if_true]
    rw [h]
    simp

theorem subEnPlain_id {l : List Char}
    (hP : ∀ c ∈ l, isLowerAlpha c = true) : subEnPlain l = l := by
  cases hp : ("en".toList).isPrefixOf l with
  | false =>
    unfold subEnPlain
    rw [hp]
    simp
  | true =>
    have h : ((l.drop 2).takeWhile isSpaceC).isEmpty = true :=
      takeWhile_isEmpty_of_false
        (fun c hc => lower_not_space (hP c (List.mem_of_mem_drop hc)))
    unfold subEnPlain
    rw [hp]
    simp only [if_true]
    rw [h]
    simp

theorem subSuffixLit_id_of_not_lower {lit l : List Char} {x : Char}
    (hx : x ∈ lit) (hxl : isLowerAlpha x = false)
    (hP : ∀ c ∈ l, isLowerAlpha c = true) : subSuffixLit lit l = l := by
  have h : (l.drop (l.length - lit.length) == lit) = false := by
    cases hb : (l.drop (l.length - lit.length) == lit) with
    | false => rfl
    | true =>
      have heq := eq_of_beq hb
      have hxin : x ∈ l := List.mem_of_mem_drop (heq ▸ hx)
      rw [hP x hxin] at hxl
      cases hxl
  simp [subSuffixLit, h]

theorem subFromLitAux_none_of_not_lower {lit : List Char} {x : Char}
    (hx : x ∈ lit) (hxl : isLowerAlpha x = false) :
    ∀ l : List Char, (∀ c ∈ l, isLowerAlpha c = true) →
      subFromLitAux lit l = none := by
  intro l
  induction l with
  | nil => intro _; rfl
  | cons c rest ih =>
    intro hP
    have hpre : lit.isPrefixOf (c :: rest) = false :=
      isPrefixOf_false_of_not_lower hP hx hxl
    simp only [subFromLitAux, hpre, Bool.false_eq_true, if_false]
    rw [ih (fun y hy => hP y (List.mem_cons_of_mem c hy))]
    rfl

theorem subFromLit_id_of_not_lower {lit l : List Char} {x : Char}
    (hx : x ∈ lit) (hxl : isLowerAlpha x = false)
    (hP : ∀ c ∈ l, isLowerAlpha c = true) : subFromLit lit l = l := by
  unfold subFromLit
  rw [subFromLitAux_none_of_not_lower hx hxl l hP]

theorem rstripSet_id {l : List Char}
    (hP : ∀ c ∈ l, isLowerAlpha c = true) : rstripSet ['-', ' ', ',', ':'] l = l := by
  have h : l.reverse.dropWhile
      (fun c => (['-', ' ', ',', ':'] : List Char).any (fun x => x == c))
      = l.reverse := by
    refine dropWhile_eq_self_of_false ?_
    intro c hc
    have hcl := hP c (List.mem_reverse.mp hc)
    have h1 : ('-' == c) = false := beq_lower_false hcl '-' (by decide)
    have h2 : (' ' == c) = false := beq_lower_false hcl ' ' (by decide)
    have h3 : (',' == c) = false := beq_lower_false hcl ',' (by decide)
    have h4 : (':' == c) = false := beq_lower_false hcl ':' (by decide)
    simp only [List.any_cons, List.any_nil, h1, h2, h3, h4, Bool.or_self,
      Bool.or_false]
  unfold rstripSet
  rw [h, List.reverse_reverse]

theorem applyFormattingFixes_id {l : List Char}
    (hP : ∀ c ∈ l, isLowerAlpha c = true) : applyFormattingFixes l = l := by
  have e1 : subAll tryQuoteMidSpace l = l :=
    subAll_id_of_none tryQuoteMidSpace_none l hP
  have e2 : subLeadingQuote l = l := subLeadingQuote_id hP
  have e3 : subTrailingQuote l = l := subTrailingQuote_id hP
  have e4 : subAll tryMultiSpace l = l :=
    subAll_id_of_none tryMultiSpace_none l hP
  have e5 : stripWs l = l := stripWs_id hP
  have e6 : subAll tryLowerUpper l = l :=
    subAll_id_of_none tryLowerUpper_none l hP
  have e7 : subAll tryDotUpper l = l :=
    subAll_id_of_none tryDotUpper_none l hP
  have e8 : subAll tryCommaAlphaBoth l = l :=
    subAll_id_of_none tryCommaAlphaBoth_none l hP
  have e9 : subAll tryQuoteMidKeep l = l :=
    subAll_id_of_none tryQuoteMidKeep_none l hP
  have e10 : ∀ lit : List Char, subAll (tryLitUpper lit) l = l := fun lit =>
    subAll_id_of_none (tryLitUpper_none lit) l hP
  have e11 : subEnArt l = l := subEnArt_id hP
  have e12 : subEnPlain l = l := subEnPlain_id hP
  have e13 : subSuffixLit ("el día".toList) l = l :=
    subSuffixLit_id_of_not_lower (x := ' ') (by decide) (by decide) hP
  have e14 : subFromLit ("con la banda".toList) l = l :=
    subFromLit_id_of_not_lower (x := ' ') (by decide) (by decide) hP
  have e15 : subFromLit ("para presentar".toList) l = l :=
    subFromLit_id_of_not_lower (x := ' ') (by decide) (by decide) hP
  have e16 : subAll tryDrComma l = l :=
    subAll_id_of_none tryDrComma_none l hP
  have e17 : rstripSet ['-', ' ', ',', ':'] l = l := rstripSet_id hP
  simp only [applyFormattingFixes, e1, e2, e3, e4, e5, e6, e7, e8, e9, e10,
    e11, e12, e13, e14, e15, e16, e17]

theorem cleanTitle_id_of_lower (l : List Char)
    (hP : ∀ c ∈ l, isLowerAlpha c = true) : cleanTitle l none false = l := by
  cases l with
  | nil => rfl
  | cons c0 rest0 =>
    have hc0 := hP c0 (List.mem_cons_self c0 rest0)
    have hn0 := isLowerAlpha_toNat hc0
    have hguard : ¬ ((c0 :: rest0) = [] ∨ (c0 :: rest0) = [':']) := by
      rintro (h | h)
      · cases h
      · injection h with h1 _
        have hval : (':' : Char).toNat = 58 := rfl
        rw [h1, hval] at hn0
        omega
    have hcolon : cleanTitleColon (c0 :: rest0) = c0 :: rest0 := by
      unfold cleanTitleColon
      rw [if_neg (head?_ne_of_lower hP ':' (by decide))]
    have hdate : cleanTitleDate none (c0 :: rest0) = c0 :: rest0 := rfl
    have hquotes : cleanTitleQuotes (c0 :: rest0) = c0 :: rest0 := by
      have h1 := head?_ne_of_lower hP dq (by decide)
      have h2 := getLast?_ne_of_lower hP dq (by decide)
      have hA : ¬ ((c0 :: rest0).head? = some dq ∧
          dq ∉ (c0 :: rest0).drop 1) := fun hx => h1 hx.1
      have hB : ¬ ((c0 :: rest0).head? = some dq ∧
          (c0 :: rest0).getLast? = some dq) := fun hx => h1 hx.1
      simp only [cleanTitleQuotes]
      rw [if_neg hA, if_neg hB, if_neg h1, if_neg h2]
    have hdangling : cleanTitleDangling (c0 :: rest0) = c0 :: rest0 := by
      have h1 : dq ∉ c0 :: rest0 := not_mem_of_all_lower hP (by decide)
      simp [cleanTitleDangling, h1]
    have hremove : removeQuotes (c0 :: rest0) = c0 :: rest0 := by
      refine List.filter_eq_self.mpr ?_
      intro a ha
      have : (a == dq) = false := lower_beq_false (hP a ha) dq (by decide)
      simp [this]
    have hents : cleanTitleEntities (c0 :: rest0) = c0 :: rest0 := by
      have h1 : subAll (tryLit ("&amp;".toList) ("&".toList)) (c0 :: rest0)
          = c0 :: rest0 :=
        subAll_id_of_none
          (tryLit_none_of_not_lower (x := '&') (by decide) (by decide)) _ hP
      have h2 : subAll (tryLit ("&quot;".toList) [dq]) (c0 :: rest0)
          = c0 :: rest0 :=
        subAll_id_of_none
          (tryLit_none_of_not_lower (x := '&') (by decide) (by decide)) _ hP
      simp only [cleanTitleEntities, replaceAllSub, h1, h2]
    have hspec : cleanTitleSpecific (c0 :: rest0) = c0 :: rest0 := by
      have h : ("1 a 4 de mayo L.E.V. Festival".toList).isPrefixOf (c0 :: rest0)
          = false :=
        isPrefixOf_false_of_not_lower hP (x := '1') (by decide) (by decide)
      simp only [cleanTitleSpecific, h, Bool.false_eq_true, if_false]
    unfold cleanTitle
    rw [if_neg hguard]
    rw [hcolon, hdate, subLeadingDayDe_id hP, subHastaEl_id hP,
      subDuranteTodo_id hP, subRangeA_id hP, subRangeDash_id hP, hquotes,
      hdangling, hremove, subVerEvento_id hP, hents,
      subLeadingColonsDashes_id hP, applyFormattingFixes_id hP, hspec]
    simp

/-- Claim C3 (counterexample): clean_title is not idempotent.  For the title
"en en x" one application yields "en x" (the formatting fixes strip the
leading "en " once), and a second application strips the newly exposed
"en el/la/los/las " prefix, yielding "x". -/
theorem cleanTitle_not_idempotent :
    cleanTitle (cleanTitle ("en en x".toList) none false) none false ≠
      cleanTitle ("en en x".toList) none false := by decide

/-- Claim C3 (amended): clean_title (with no date_pattern and the default
capitalization flag) is not idempotent in general, but it is idempotent on
every title consisting solely of lowercase ASCII letters, where it acts as
the identity. -/
theorem cleanTitle_idempotent_on_lowercase (l : List Char)
    (hP : ∀ c ∈ l, isLowerAlpha c = true) :
    cleanTitle (cleanTitle l none false) none false =
      cleanTitle l none false := by
  rw [cleanTitle_id_of_lower l hP, cleanTitle_id_of_lower l hP]

/-- Witness for cleanTitle_idempotent_on_lowercase at the concrete title
"concierto". -/
theorem cleanTitle_idempotent_on_lowercase_witness :
    (∀ c ∈ ("concierto".toList), isLowerAlpha c = true) ∧
    cleanTitle (cleanTitle ("concierto".toList) none false) none false =
      cleanTitle ("concierto".toList) none false :=
  ⟨by decide, cleanTitle_idempotent_on_lowercase ("concierto".toList) (by decide)⟩

/-- Claim C4: clean_title strips surrounding quotes and maps the single-colon
placeholder to the empty string. -/
theorem cleanTitle_quotes_and_colon :
    cleanTitle ([dq] ++ "Concierto".toList ++ [dq]) none false =
      "Concierto".toList ∧
    cleanTitle [':'] none false = [] := by
  constructor
  · decide
  · rfl

/-! Location processing: TextProcessor.clean_location and helpers, and the
processor.py variants used by EventProcessor. -/

/-- VENUE_WORDS from utils.py. -/
def venueWords : List (List Char) :=
  ["Teatro".toList, "Auditorio".toList, "Sala".toList, "Centro".toList,
   "Pabellón".toList, "Plaza".toList, "Factoría".toList, "Recinto".toList,
   "Museo".toList]

/-- Characters matched by the regex class `[^,.]`. -/
def notCommaDot (c : Char) : Bool := !(c == ',' || c == '.')

/-- Characters matched by the regex class `\w` on the alphabet handled by the
program (ASCII word characters and Spanish accented letters). -/
def isWordC (c : Char) : Bool :=
  isAsciiAlpha c || isDigitC c || c == '_' || accentLower.contains c ||
  accentUpper.contains c

/-- Descending lengths n, n-1, ..., 1 (the order in which a greedy `[^,.]+`
tries its match lengths). -/
def descLens (n : Nat) : List Nat := (List.range n).reverse.map (· + 1)

/-- Matcher for the anchored pattern `^([^,.]+(?:<kw>|...)[^,.]{0,30})`
(re.match): the first `[^,.]+` is greedy (longest length first), then the
keyword alternatives are tried in order, then `[^,.]{0,30}` takes greedily;
returns group(1). -/
def vmMatch (kws : List (List Char)) (l : List Char) : Option (List Char) :=
  let zone := l.takeWhile notCommaDot
  (descLens zone.length).findSome? (fun k =>
    let part1 := zone.take k
    let rest := zone.drop k
    kws.findSome? (fun kw =>
      if kw.isPrefixOf rest then
        some (part1 ++ kw ++ (rest.drop kw.length).take 30)
      else none))

/-- Attempt of `([^,.]+(?:<kw>|...)[^,.]+)(?:de|en)\s+([^,.]+)` at one
position, on the maximal `[^,.]`-zone starting there: part1 length
descending, then keyword order, then part2 length descending, then `de`
before `en`; the final `\s+([^,.]+)` is deterministic (greedy `\s+`, giving
back one space when the group would otherwise be empty).  Every component of
the pattern excludes `,` and `.`, so the whole match lies inside the zone.
Returns (group1, group2). -/
def vcTryZone (kws : List (List Char)) (zone : List Char) :
    Option (List Char × List Char) :=
  (descLens zone.length).findSome? (fun k =>
    let part1 := zone.take k
    let rest1 := zone.drop k
    kws.findSome? (fun kw =>
      if kw.isPrefixOf rest1 then
        let rest2 := rest1.drop kw.length
        (descLens rest2.length).findSome? (fun j =>
          let part2 := rest2.take j
          let rest3 := rest2.drop j
          [['d', 'e'], ['e', 'n']].findSome? (fun lit =>
            if lit.isPrefixOf rest3 then
              let rest4 := rest3.drop 2
              let sp := rest4.takeWhile isSpaceC
              if sp.isEmpty then none
              else
                let afterSp := rest4.drop sp.length
                if !afterSp.isEmpty then
                  some (part1 ++ kw ++ part2, afterSp)
                else if decide (2 ≤ sp.length) then
                  some (part1 ++ kw ++ part2, [sp.getLastD ' '])
                else none
            else none))
      else none))

/-- Model of `re.search` for the venue-city pattern: leftmost position
first. -/
def vcSearch (kws : List (List Char)) : List Char →
    Option (List Char × List Char) :=
  searchFirst (fun s => vcTryZone kws (s.takeWhile notCommaDot))

/-- Predicate: `\d+\s+de\s+\w+$` matches the whole of this suffix (each
greedy piece is forced, as the next piece starts with a different character
class). -/
def dateTailHere (s : List Char) : Bool :=
  let ds := s.takeWhile isDigitC
  if ds.isEmpty then false
  else
    let r1 := s.drop ds.length
    if (r1.takeWhile isSpaceC).isEmpty then false
    else
      match r1.dropWhile isSpaceC with
      | 'd' :: 'e' :: r2 =>
        if (r2.takeWhile isSpaceC).isEmpty then false
        else
          let rest := r2.dropWhile isSpaceC
          !rest.isEmpty && rest.all isWordC
      | _ => false

/-- Predicate: `el\s+\w+\s+\d+$` matches the whole of this suffix. -/
def elWordNumTailHere (s : List Char) : Bool :=
  match s with
  | 'e' :: 'l' :: r1 =>
    if (r1.takeWhile isSpaceC).isEmpty then false
    else
      let w1 := (r1.dropWhile isSpaceC).takeWhile isWordC
      if w1.isEmpty then false
      else
        let r2 := (r1.dropWhile isSpaceC).drop w1.length
        if (r2.takeWhile isSpaceC).isEmpty then false
        else
          let rest := r2.dropWhile isSpaceC
          !rest.isEmpty && rest.all isDigitC
  | _ => false

/-- Position of the first suffix satisfying a predicate. -/
def findPosWhere (pred : List Char → Bool) : List Char → Option Nat
  | [] => none
  | c :: rest =>
    if pred (c :: rest) then some 0
    else (findPosWhere pred rest).map (· + 1)

/-- Model of `re.sub(r'\d+\s+de\s+\w+$', '', s)`. -/
def subDateTail (s : List Char) : List Char :=
  match findPosWhere dateTailHere s with
  | some p => s.take p
  | none => s

/-- Model of `re.sub(r'el\s+\w+\s+\d+$', '', s)`. -/
def subElWordNumTail (s : List Char) : List Char :=
  match findPosWhere elWordNumTailHere s with
  | some p => s.take p
  | none => s

/-- Matcher for the unanchored `\d+\s+de\s+\w+` (replacement empty). -/
def tryDateAnywhere (l : List Char) : Option (List Char × Nat) :=
  let ds := l.takeWhile isDigitC
  if ds.isEmpty then none
  else
    let r1 := l.drop ds.length
    let sp1 := r1.takeWhile isSpaceC
    if sp1.isEmpty then none
    else
      match r1.dropWhile isSpaceC with
      | 'd' :: 'e' :: r2 =>
        let sp2 := r2.takeWhile isSpaceC
        if sp2.isEmpty then none
        else
          let w := (r2.dropWhile isSpaceC).takeWhile isWordC
          if w.isEmpty then none
          else
            some ([], ds.length + sp1.length + 2 + sp2.length + w.length)
      | _ => none

/-- Matcher for the unanchored `el\s+\w+\s+\d+` (replacement empty). -/
def tryElWordNumAnywhere (l : List Char) : Option (List Char × Nat) :=
  match l with
  | 'e' :: 'l' :: r1 =>
    let sp1 := r1.takeWhile isSpaceC
    if sp1.isEmpty then none
    else
      let w1 := (r1.dropWhile isSpaceC).takeWhile isWordC
      if w1.isEmpty then none
      else
        let r2 := (r1.dropWhile isSpaceC).drop w1.length
        let sp2 := r2.takeWhile isSpaceC
        if sp2.isEmpty then none
        else
          let ds := (r2.dropWhile isSpaceC).takeWhile isDigitC
          if ds.isEmpty then none
          else
            some ([], 2 + sp1.length + w1.length + sp2.length + ds.length)
  | _ => none

/-- Shared body of TextProcessor.extract_venue_and_city (utils.py lines
512-557) and EventProcessor._extract_venue_and_city (processor.py lines
210-258), which differ only in their keyword lists: `kws80` for the
over-80-characters venue match, `kwsVC` for the venue-city pattern, and
`kwsLoop` for the final keyword cleanup loop. -/
def extractVenueAndCityWith (kws80 kwsVC kwsLoop : List (List Char))
    (location : List Char) : List Char :=
  let location :=
    if decide (80 < location.length) then
      let location :=
        match vmMatch kws80 location with
        | some g1 => stripWs g1
        | none => location
      if decide (80 < location.length) then location.take 77 ++ "...".toList
      else location
    else location
  match vcSearch kwsVC location with
  | some (g1, g2) =>
    let venue := stripWs g1
    let city := stripWs g2
    let city := stripWs (subDateTail city)
    let city := stripWs (subElWordNumTail city)
    venue ++ " (".toList ++ city ++ [')']
  | none =>
    match kwsLoop.find? (fun kw => containsSub location kw) with
    | some _ =>
      stripWs (subAll tryElWordNumAnywhere
        (stripWs (subAll tryDateAnywhere location)))
    | none => location

/-- TextProcessor.extract_venue_and_city (utils.py lines 512-557). -/
def extractVenueAndCity (location : List Char) : List Char :=
  extractVenueAndCityWith venueWords venueWords venueWords location

/-- Matcher for `[\r\n]+` (replacement a single space). -/
def tryCRLF (l : List Char) : Option (List Char × Nat) :=
  match l with
  | c :: _ =>
    if c == '\r' || c == '\n' then
      some ([' '], (l.takeWhile (fun x => x == '\r' || x == '\n')).length)
    else none
  | [] => none

/-- Matcher for `,\s*,` (replacement a single comma). -/
def tryCommaSpComma (l : List Char) : Option (List Char × Nat) :=
  match l with
  | c :: rest =>
    if c == ',' then
      let sp := rest.takeWhile isSpaceC
      match rest.drop sp.length with
      | c2 :: _ => if c2 == ',' then some ([','], sp.length + 2) else none
      | [] => none
    else none
  | [] => none

/-- Matcher for `\s+` (replacement a single space). -/
def tryWsRun (l : List Char) : Option (List Char × Nat) :=
  match l with
  | c :: _ =>
    if isSpaceC c then some ([' '], (l.takeWhile isSpaceC).length) else none
  | [] => none

/-- The "El Atrio" replacement used when the location mentions "Cuba". -/
def atrioReplacement : List Char :=
  "Centro Comercial ".toList ++ [apos] ++ "El Atrio".toList ++ [apos] ++
  " (C/ Cámara, Cuba, Dr.), Avilés".toList

/-- TextProcessor.clean_location (utils.py lines 559-607): line breaks are
replaced, formatting fixes applied, then the specific-location lookup table
is consulted in insertion order (the "El Atrio" entry maps to the location
itself unless it mentions "Cuba"), then the truncated-location fixes, and
otherwise the venue-city extraction after comma/space cleanup. -/
def cleanLocation (location : List Char) : List Char :=
  if location = [] then []
  else
    let location := subAll tryCRLF location
    let location := applyFormattingFixes location
    if containsSub location ("El Atrio".toList) then
      (if containsSub location ("Cuba".toList) then atrioReplacement
       else location)
    else if containsSub location ("La Florida con".toList) then
      "Centro Social La Florida, Oviedo".toList
    else if containsSub location ("Factoría Cultural".toList) then
      "Factoría Cultural, Avilés".toList
    else if containsSub location ("NIEMEYER".toList) then
      "Centro Niemeyer, Avilés".toList
    else if stripWs location = "Plaza".toList then
      "Plaza de Asturias, Oviedo".toList
    else if stripWs location = "Centro Social".toList then
      "Centro Social de Oviedo".toList
    else if containsSub location ("Centro Social".toList) = true ∧
        (stripWs location).length < 20 then
      location ++ ", Oviedo".toList
    else
      stripWs (extractVenueAndCity
        (subAll tryWsRun (subAll tryCommaSpComma location)))

/-- Matcher for `([a-zA-Z]),([A-Z])` with replacement `\1, \2`
(EventProcessor._fix_formatting_issues, processor.py line 152; unlike the
utils variant the second letter must be uppercase). -/
def tryCommaUpper (l : List Char) : Option (List Char × Nat) :=
  match l with
  | c1 :: c2 :: c3 :: _ =>
    if isAsciiAlpha c1 && c2 == ',' && isUpperAlpha c3 then
      some ([c1, ',', ' ', c3], 3)
    else none
  | _ => none

/-- EventProcessor._fix_formatting_issues (processor.py lines 137-175). The
final substitution `re.sub(r'C/ ([^,]+), ([^,]+), ([^,]+)$', r'C/ \1, \2, \3',
location)` replaces every match by its own matched text, so it is the
identity and is modelled as such. -/
def procFixFormattingIssues (location : List Char) : List Char :=
  let location := subAll tryLowerUpper location
  let location := subAll tryDotUpper location
  let location := subAll tryCommaUpper location
  let location := subAll tryQuoteMidKeep location
  let location := subAll (tryLitUpper ("la".toList)) location
  let location := subAll (tryLitUpper ("el".toList)) location
  let location := subAll (tryLitUpper ("de".toList)) location
  let location := subAll (tryLitUpper ("del".toList)) location
  let location := subAll (tryLitUpper ("un".toList)) location
  let location := subEnArt location
  let location := subEnPlain location
  let location := subSuffixLit ("el día".toList) location
  let location := subFromLit ("con la banda".toList) location
  let location := subFromLit ("para presentar".toList) location
  let location := subAll tryDrComma location
  location

/-- EventProcessor._handle_specific_locations (processor.py lines 177-208);
the same lookup table as utils clean_location, but returning the location
when no entry applies (the caller continues processing). -/
def procHandleSpecificLocations (location : List Char) : List Char :=
  if containsSub location ("El Atrio".toList) then
    (if containsSub location ("Cuba".toList) then atrioReplacement
     else location)
  else if containsSub location ("La Florida con".toList) then
    "Centro Social La Florida, Oviedo".toList
  else if containsSub location ("Factoría Cultural".toList) then
    "Factoría Cultural, Avilés".toList
  else if containsSub location ("NIEMEYER".toList) then
    "Centro Niemeyer, Avilés".toList
  else if stripWs location = "Plaza".toList then
    "Plaza de Asturias, Oviedo".toList
  else if stripWs location = "Centro Social".toList then
    "Centro Social de Oviedo".toList
  else if containsSub location ("Centro Social".toList) = true ∧
      (stripWs location).length < 20 then
    location ++ ", Oviedo".toList
  else location

/-- Venue keyword list of EventProcessor._extract_venue_and_city for the
over-80 match and the venue-city pattern (processor.py lines 223-224 and
236-237; includes "Arena"). -/
def procVenue80 : List (List Char) :=
  ["Teatro".toList, "Auditorio".toList, "Centro".toList, "Sala".toList,
   "Pabellón".toList, "Plaza".toList, "Factoría".toList, "Museo".toList,
   "Arena".toList]

/-- Venue keyword list of the final cleanup loop of
EventProcessor._extract_venue_and_city (processor.py lines 250-251; includes
"Recinto", not "Arena"). -/
def procVenueLoop : List (List Char) :=
  ["Teatro".toList, "Auditorio".toList, "Centro".toList, "Sala".toList,
   "Pabellón".toList, "Plaza".toList, "Factoría".toList, "Museo".toList,
   "Recinto".toList]

/-- EventProcessor._extract_venue_and_city (processor.py lines 210-258). -/
def procExtractVenueAndCity (location : List Char) : List Char :=
  extractVenueAndCityWith procVenue80 procVenue80 procVenueLoop location

/-- EventProcessor._clean_location (processor.py lines 106-135). -/
def procCleanLocation (location : List Char) : List Char :=
  if location = [] then []
  else
    let location := subAll tryCRLF location
    let location := procFixFormattingIssues location
    let location := procHandleSpecificLocations location
    let location := subAll tryCommaSpComma location
    let location := subAll tryWsRun location
    stripWs (procExtractVenueAndCity location)

/-- Characters matched by the regex class `[\w\s.]`. -/
def isClassWSDot (c : Char) : Bool :=
  isWordC c || isSpaceC c || c == '.'

/-- Attempt of the case-insensitive `<word>\s+[\w\s.]+` at one position:
the word compared case-insensitively, then at least one whitespace, then at
least one class character (the greedy `\s+` gives back its last character to
the class when nothing else follows); returns group(0), taken verbatim from
the original text. -/
def tryVenueWord (w : List Char) (s : List Char) : Option (List Char) :=
  if decide (w.length ≤ s.length) ∧ lowerL (s.take w.length) = lowerL w then
    let after := s.drop w.length
    let sp := after.takeWhile isSpaceC
    if sp.isEmpty then none
    else
      let run2 := (after.drop sp.length).takeWhile isClassWSDot
      if !run2.isEmpty then some (s.take w.length ++ sp ++ run2)
      else if decide (2 ≤ sp.length) then some (s.take w.length ++ sp)
      else none
  else none

/-- TextProcessor.extract_location_from_title (utils.py lines 451-472): the
title is formatted, then the venue words are tried in order, each with
`re.search(f"<word>\\s+[\\w\\s\\.]+", ..., re.IGNORECASE)`, returning the
first match's group(0). -/
def extractLocationFromTitle (title : List Char) : List Char :=
  let ct := applyFormattingFixes title
  match venueWords.findSome? (fun w => searchFirst (tryVenueWord w) ct) with
  | some m => m
  | none => []

/-- EventProcessor._fix_centro_social_location (processor.py lines 81-104):
exact-match lookup in the partial-location map, else the Centro Social
completion. -/
def fixCentroSocialLocation (location : List Char) : List Char :=
  if location = "Plaza".toList then "Plaza de Asturias, Oviedo".toList
  else if location = "Centro Social El".toList then
    "Centro Social El Cortijo, Oviedo".toList
  else if location = "Centro Social Bra".toList then
    "Centro Social Braulio, Oviedo".toList
  else if location = "Centro Social".toList then
    "Centro Social de Oviedo".toList
  else if location = "Social".toList then "Centro Social de Oviedo".toList
  else if containsSub location ("Centro Social".toList) = true ∧
      location.length < 25 ∧
      containsSub location ("Oviedo".toList) = false then
    stripWs location ++ ", Oviedo".toList
  else location

/-- An event record as handled by EventProcessor (dictionary with string
fields; a missing field is the empty string, matching Python falsiness). -/
structure Event where
  title : List Char
  date : List Char
  location : List Char
  url : List Char
  source : List Char
deriving DecidableEq

/-- EventProcessor._complete_location_info (processor.py lines 62-79):
fill the location from the title when missing, fix Centro Social locations
for their source, and clean the location; only the location field is
updated. -/
def completeLocationInfo (e : Event) : Event :=
  let loc :=
    if e.location = [] ∧ e.title ≠ [] then extractLocationFromTitle e.title
    else e.location
  let loc :=
    if e.source = ("Centros Sociales Oviedo".toList) ∧ loc ≠ [] then
      fixCentroSocialLocation loc
    else loc
  let loc := if loc ≠ [] then procCleanLocation loc else loc
  { e with location := loc }

/-- Attempt of `asturias en [a-z]+` at one position. -/
def tryAsturiasEn (s : List Char) : Option Unit :=
  if ("asturias en ".toList).isPrefixOf s then
    match s.drop 12 with
    | c :: _ => if isLowerAlpha c then some () else none
    | [] => none
  else none

/-- Model of `re.search(r'asturias en [a-z]+', s)` being successful. -/
def searchAsturiasEn (s : List Char) : Bool :=
  (searchFirst tryAsturiasEn s).isSome

/-- TextProcessor.is_non_event (utils.py lines 609-620): the NON_EVENT
patterns searched in the lowercased title ('agenda', 'asturias en [a-z]+',
'¿quieres saber', 'planes', 'vamos allá'; all but the second are literal
searches). -/
def isNonEvent (title : List Char) : Bool :=
  let lt := lowerL title
  containsSub lt ("agenda".toList) || searchAsturiasEn lt ||
  containsSub lt ("¿quieres saber".toList) ||
  containsSub lt ("planes".toList) || containsSub lt ("vamos allá".toList)

/-- Ascending comparison of date sort keys (Python tuple order). -/
def pairLe (a b : Nat × Nat) : Bool :=
  decide (a.1 < b.1 ∨ (a.1 = b.1 ∧ a.2 ≤ b.2))

/-- Stable ordered insert: the inserted element goes before the first element
with a key not smaller than its own (elements earlier in the original list
are inserted later from the right fold, so equal keys keep their original
order, as Python's stable list.sort does). -/
def insertByKey (key : Event → Nat × Nat) (e : Event) :
    List Event → List Event
  | [] => [e]
  | h :: t =>
    if pairLe (key e) (key h) then e :: h :: t
    else h :: insertByKey key e t

/-- Stable insertion sort by key, modelling `list.sort(key=...)`. -/
def insertionSortByKey (key : Event → Nat × Nat) : List Event → List Event
  | [] => []
  | e :: rest => insertByKey key e (insertionSortByKey key rest)

/-- EventProcessor.process_events (processor.py lines 22-60): skip events
with empty title or date, skip non-events, keep future events, complete
their location, and sort by date key.  The current day (datetime.now().day
in the source) and current month (used by is_future_event and
date_sort_key) are passed explicitly; `if not events: return []` is
subsumed by the empty list case. -/
def processEvents (currentMonth currentDay : Nat) (events : List Event) :
    List Event :=
  let filtered := events.filter (fun e =>
    !e.title.isEmpty && !e.date.isEmpty && !isNonEvent e.title &&
    isFutureEvent currentMonth e.date currentDay)
  insertionSortByKey (fun e => dateSortKey currentMonth e.date)
    (filtered.map completeLocationInfo)

theorem mem_of_mem_insertByKey {key : Event → Nat × Nat} {e x : Event} :
    ∀ {l : List Event}, x ∈ insertByKey key e l → x = e ∨ x ∈ l := by
  intro l
  induction l with
  | nil =>
    intro h
    simp [insertByKey] at h
    exact Or.inl h
  | cons h t ih =>
    intro hx
    simp only [insertByKey] at hx
    by_cases hc : pairLe (key e) (key h) = true
    · simp only [hc, if_true] at hx
      rcases List.mem_cons.mp hx with h1 | h1
      · exact Or.inl h1
      · exact Or.inr h1
    · simp only [hc, if_false] at hx
      rcases List.mem_cons.mp hx with h1 | h1
      · exact Or.inr (by simp [h1])
      · rcases ih h1 with h2 | h2
        · exact Or.inl h2
        · exact Or.inr (by simp [h2])

theorem mem_of_mem_insertionSortByKey {key : Event → Nat × Nat} {x : Event} :
    ∀ {l : List Event}, x ∈ insertionSortByKey key l → x ∈ l := by
  intro l
  induction l with
  | nil => intro h; simp [insertionSortByKey] at h
  | cons e rest ih =>
    intro hx
    simp only [insertionSortByKey] at hx
    rcases mem_of_mem_insertByKey hx with h1 | h1
    · simp [h1]
    · exact List.mem_cons_of_mem e (ih h1)

/-- Claim C5: no event whose title contains the substring "agenda" in any
letter case appears in the output of EventProcessor.process_events,
regardless of the event's date (for every current month and day). -/
theorem processEvents_excludes_agenda (cm cd : Nat) (events : List Event)
    (e : Event) (he : e ∈ processEvents cm cd events) :
    containsSub (lowerL e.title) ("agenda".toList) = false := by
  have h1 : e ∈ (events.filter (fun e =>
      !e.title.isEmpty && !e.date.isEmpty && !isNonEvent e.title &&
      isFutureEvent cm e.date cd)).map completeLocationInfo :=
    mem_of_mem_insertionSortByKey he
  rcases List.mem_map.mp h1 with ⟨e0, he0, heq⟩
  have htitle : e.title = e0.title := by
    rw [← heq]
    rfl
  rw [htitle]
  have hcond := (List.mem_filter.mp he0).2
  simp only [Bool.and_eq_true] at hcond
  have hnon : isNonEvent e0.title = false := by
    rcases hcond with ⟨⟨⟨_, _⟩, hn⟩, _⟩
    cases h : isNonEvent e0.title with
    | false => rfl
    | true => rw [h] at hn; cases hn
  unfold isNonEvent at hnon
  simp only [Bool.or_eq_false_iff] at hnon
  exact hnon.1.1.1.1

/-- Witness for processEvents_excludes_agenda: a concrete event list whose
single event survives processing. -/
theorem processEvents_excludes_agenda_witness :
    (⟨"fiesta".toList, "20 de mayo".toList, [], [], []⟩ : Event) ∈
      processEvents 4 15 [⟨"fiesta".toList, "20 de mayo".toList, [], [], []⟩] ∧
    containsSub (lowerL ("fiesta".toList)) ("agenda".toList) = false :=
  ⟨by decide,
   processEvents_excludes_agenda 4 15
     [⟨"fiesta".toList, "20 de mayo".toList, [], [], []⟩]
     ⟨"fiesta".toList, "20 de mayo".toList, [], [], []⟩ (by decide)⟩

/-- Claim C6 (counterexample): "Teatro El Atrio NIEMEYER" contains both
"NIEMEYER" and the venue keyword "Teatro", yet clean_location does not
return "Centro Niemeyer, Avilés": the "El Atrio" entry precedes "NIEMEYER"
in the lookup table and (without "Cuba") maps the location to itself. -/
theorem cleanLocation_niemeyer_counterexample :
    containsSub ("Teatro El Atrio NIEMEYER".toList) ("NIEMEYER".toList) = true ∧
    containsSub ("Teatro El Atrio NIEMEYER".toList) ("Teatro".toList) = true ∧
    cleanLocation ("Teatro El Atrio NIEMEYER".toList) ≠
      "Centro Niemeyer, Avilés".toList :=
  ⟨by decide, by decide, by decide⟩

/-- Claim C6 (amended): the fixed "NIEMEYER" lookup-table mapping takes
precedence over the generic venue-keyword match provided no earlier table
entry interferes: for every location whose line-break-normalised and
formatting-fixed text contains "NIEMEYER" and none of the earlier lookup
keys ("El Atrio", "La Florida con", "Factoría Cultural"), clean_location
returns "Centro Niemeyer, Avilés", whether or not a venue keyword such as
"Teatro" occurs. -/
theorem cleanLocation_niemeyer_amended (l : List Char)
    (hq : containsSub (applyFormattingFixes (subAll tryCRLF l))
      ("NIEMEYER".toList) = true)
    (h1 : containsSub (applyFormattingFixes (subAll tryCRLF l))
      ("El Atrio".toList) = false)
    (h2 : containsSub (applyFormattingFixes (subAll tryCRLF l))
      ("La Florida con".toList) = false)
    (h3 : containsSub (applyFormattingFixes (subAll tryCRLF l))
      ("Factoría Cultural".toList) = false) :
    cleanLocation l = "Centro Niemeyer, Avilés".toList := by
  cases l with
  | nil =>
    rw [show applyFormattingFixes (subAll tryCRLF []) = [] from rfl] at hq
    cases hq
  | cons c rest =>
    unfold cleanLocation
    rw [if_neg (by simp)]
    simp only [h1, h2, h3, hq, Bool.false_eq_true, if_false, if_true]

/-- Witness for cleanLocation_niemeyer_amended: the location
"Teatro NIEMEYER" contains the venue keyword "Teatro" and is mapped to the
fixed "Centro Niemeyer, Avilés". -/
theorem cleanLocation_niemeyer_amended_witness :
    containsSub ("Teatro NIEMEYER".toList) ("Teatro".toList) = true ∧
    cleanLocation ("Teatro NIEMEYER".toList) = "Centro Niemeyer, Avilés".toList :=
  ⟨by decide,
   cleanLocation_niemeyer_amended ("Teatro NIEMEYER".toList) (by decide)
     (by decide) (by decide) (by decide)⟩

/-! LLM variant: JSON values, llm_client.py and url_processor.py. -/

/-- A parsed JSON value (the LLM reply content after json.loads). -/
inductive JsonVal where
  | null : JsonVal
  | bool (b : Bool) : JsonVal
  | num (n : Int) : JsonVal
  | str (s : List Char) : JsonVal
  | arr (elems : List JsonVal) : JsonVal
  | obj (fields : List (List Char × JsonVal)) : JsonVal

/-- True exactly for JSON arrays (Python lists). -/
def isArrJ : JsonVal → Bool
  | .arr _ => true
  | _ => false

/-- True exactly for JSON objects (Python dicts). -/
def isObjJ : JsonVal → Bool
  | .obj _ => true
  | _ => false

/-- The list-coercion stage of LLMClient.extract_events (llm_client.py lines
63-73) on the parsed reply content: a list is returned as is, a dict is
wrapped in a one-element list, and any other value raises
ValueError("LLM did not return a list or dictionary") — which the
surrounding except clause (KeyError, json.JSONDecodeError) does not catch. -/
def extractEventsCoerce (events : JsonVal) : Except (List Char) (List JsonVal) :=
  match events with
  | .arr es => .ok es
  | .obj fs => .ok [.obj fs]
  | _ => .error ("LLM did not return a list or dictionary".toList)

/-- The list-coercion stage of URLEventProcessor._get_llm_response
(url_processor.py lines 80-85): a list is returned as is, a dict is wrapped
in a one-element list, and any other value becomes the empty list. -/
def getLlmResponseCoerce (events : JsonVal) : List JsonVal :=
  match events with
  | .arr es => es
  | .obj fs => [.obj fs]
  | _ => []

/-- Leap years as in Python's calendar/datetime. -/
def isLeap (y : Nat) : Bool := y % 4 == 0 && (y % 100 != 0 || y % 400 == 0)

/-- Days in a month, as validated by the datetime constructor. -/
def daysInMonth (y m : Nat) : Nat :=
  if m = 2 then (if isLeap y then 29 else 28)
  else if m = 4 ∨ m = 6 ∨ m = 9 ∨ m = 11 then 30
  else 31

/-- A (year, month, day) accepted by datetime(year, month, day). -/
def validYMD (y m d : Nat) : Bool :=
  decide (1 ≤ y) && decide (y ≤ 9999) && decide (1 ≤ m) && decide (m ≤ 12) &&
  decide (1 ≤ d) && decide (d ≤ daysInMonth y m)

/-- Candidates of strptime's `%Y` directive (exactly four digits), as
(value, rest). -/
def yearCands (l : List Char) : List (Nat × List Char) :=
  match l with
  | c1 :: c2 :: c3 :: c4 :: rest =>
    if isDigitC c1 && isDigitC c2 && isDigitC c3 && isDigitC c4 then
      [(natOfDigits [c1, c2, c3, c4], rest)]
    else []
  | _ => []

/-- Candidates of strptime's `%m` directive, regex `1[0-2]|0[1-9]|[1-9]`,
in alternation (backtracking) order. -/
def monthCands (l : List Char) : List (Nat × List Char) :=
  (match l with
   | c1 :: c2 :: rest =>
     if c1 == '1' && isDigitC c2 && decide (c2.toNat ≤ 50) then
       [(10 + (c2.toNat - 48), rest)]
     else []
   | _ => []) ++
  (match l with
   | c1 :: c2 :: rest =>
     if c1 == '0' && isDigitC c2 && decide (49 ≤ c2.toNat) then
       [(c2.toNat - 48, rest)]
     else []
   | _ => []) ++
  (match l with
   | c1 :: rest =>
     if isDigitC c1 && decide (49 ≤ c1.toNat) then [(c1.toNat - 48, rest)]
     else []
   | [] => [])

/-- Candidates of strptime's `%d` directive, regex
`3[01]|[12]\d|0[1-9]|[1-9]`, in alternation order. -/
def dayCands (l : List Char) : List (Nat × List Char) :=
  (match l with
   | c1 :: c2 :: rest =>
     if c1 == '3' && (c2 == '0' || c2 == '1') then
       [(30 + (c2.toNat - 48), rest)]
     else []
   | _ => []) ++
  (match l with
   | c1 :: c2 :: rest =>
     if (c1 == '1' || c1 == '2') && isDigitC c2 then
       [((c1.toNat - 48) * 10 + (c2.toNat - 48), rest)]
     else []
   | _ => []) ++
  (match l with
   | c1 :: c2 :: rest =>
     if c1 == '0' && isDigitC c2 && decide (49 ≤ c2.toNat) then
       [(c2.toNat - 48, rest)]
     else []
   | _ => []) ++
  (match l with
   | c1 :: rest =>
     if isDigitC c1 && decide (49 ≤ c1.toNat) then [(c1.toNat - 48, rest)]
     else []
   | [] => [])

/-- English month names with their numbers (the C locale used by
strptime's `%B`). -/
def englishMonths : List (List Char × Nat) :=
  [("january".toList, 1), ("february".toList, 2), ("march".toList, 3),
   ("april".toList, 4), ("may".toList, 5), ("june".toList, 6),
   ("july".toList, 7), ("august".toList, 8), ("september".toList, 9),
   ("october".toList, 10), ("november".toList, 11), ("december".toList, 12)]

/-- Candidates of strptime's `%B` directive (full month name,
case-insensitive; no name is a prefix of another, so at most one
matches). -/
def monthNameCands (l : List Char) : List (Nat × List Char) :=
  englishMonths.filterMap (fun p =>
    if lowerL (l.take p.1.length) = p.1 ∧ p.1.length ≤ l.length then
      some (p.2, l.drop p.1.length)
    else none)

/-- Candidates after a whitespace run (strptime turns whitespace in the
format into `\s+`). -/
def wsCand (l : List Char) : List (List Char) :=
  if (l.takeWhile isSpaceC).isEmpty then [] else [l.dropWhile isSpaceC]

/-- First full-pattern parse of `%Y-%m-%d` in backtracking order, as
(y, m, d, rest). -/
def parseYmd (l : List Char) : Option (Nat × Nat × Nat × List Char) :=
  ((yearCands l).flatMap (fun py =>
    match py.2 with
    | '-' :: r2 =>
      (monthCands r2).flatMap (fun pm =>
        match pm.2 with
        | '-' :: r4 =>
          (dayCands r4).map (fun pd => (py.1, pm.1, pd.1, pd.2))
        | _ => [])
    | _ => [])).head?

/-- First full-pattern parse of `%d<sep>%m<sep>%Y` (sep is '/' or '-'), as
(y, m, d, rest). -/
def parseDmy (sep : Char) (l : List Char) : Option (Nat × Nat × Nat × List Char) :=
  ((dayCands l).flatMap (fun pd =>
    match pd.2 with
    | c :: r2 =>
      if c == sep then
        (monthCands r2).flatMap (fun pm =>
          match pm.2 with
          | c2 :: r4 =>
            if c2 == sep then
              (yearCands r4).map (fun py => (py.1, pm.1, pd.1, py.2))
            else []
          | [] => [])
      else []
    | [] => [])).head?

/-- First full-pattern parse of `%m/%d/%Y`, as (y, m, d, rest). -/
def parseMdy (l : List Char) : Option (Nat × Nat × Nat × List Char) :=
  ((monthCands l).flatMap (fun pm =>
    match pm.2 with
    | '/' :: r2 =>
      (dayCands r2).flatMap (fun pd =>
        match pd.2 with
        | '/' :: r4 =>
          (yearCands r4).map (fun py => (py.1, pm.1, pd.1, py.2))
        | _ => [])
    | _ => [])).head?

/-- First full-pattern parse of `%B %d, %Y`, as (y, m, d, rest). -/
def parseBdy (l : List Char) : Option (Nat × Nat × Nat × List Char) :=
  ((monthNameCands l).flatMap (fun pm =>
    (wsCand pm.2).flatMap (fun r2 =>
      (dayCands r2).flatMap (fun pd =>
        match pd.2 with
        | ',' :: r4 =>
          (wsCand r4).flatMap (fun r5 =>
            (yearCands r5).map (fun py => (py.1, pm.1, pd.1, py.2)))
        | _ => [])))).head?

/-- Decimal digits of a natural number padded with leading zeros to the
given width (strftime zero-padding). -/
def padDigits (width n : Nat) : List Char :=
  let ds := Nat.toDigits 10 n
  List.replicate (width - ds.length) '0' ++ ds

/-- One strptime attempt followed by datetime validation: the regex match
must span the whole string (else "unconverted data remains") and the matched
values must form a valid date (else the datetime constructor raises); on
success the rendering of strftime("%Y-%m-%d") (glibc strftime does not
zero-pad %Y). -/
def strptimeNorm (parse : List Char → Option (Nat × Nat × Nat × List Char))
    (s : List Char) : Option (List Char) :=
  match parse s with
  | some (y, m, d, rest) =>
    if rest = [] ∧ validYMD y m d = true then
      some (Nat.toDigits 10 y ++ ['-'] ++ padDigits 2 m ++ ['-'] ++
        padDigits 2 d)
    else none
  | none => none

/-- The validate_date validator of Event (event_parser.py lines 18-37) on a
string value: the five formats are tried in order and the first success is
normalised to ISO; otherwise the value is returned unchanged.  (Falsy values
are handled by the caller.) -/
def normalizeDate (s : List Char) : List Char :=
  match strptimeNorm parseYmd s with
  | some r => r
  | none =>
    match strptimeNorm (parseDmy '/') s with
    | some r => r
    | none =>
      match strptimeNorm parseMdy s with
      | some r => r
      | none =>
        match strptimeNorm (parseDmy '-') s with
        | some r => r
        | none =>
          match strptimeNorm parseBdy s with
          | some r => r
          | none => s

/-- Decimal rendering of an integer (Python str on int). -/
def intRepr (n : Int) : List Char :=
  if n < 0 then '-' :: Nat.toDigits 10 n.natAbs else Nat.toDigits 10 n.natAbs

/-- The str coercion of pydantic v1 on a JSON value: strings pass through,
ints (and bools, which are ints) are rendered, other values fail
validation. -/
def coerceStr : JsonVal → Option (List Char)
  | .str s => some s
  | .num n => some (intRepr n)
  | .bool b => some (if b then "True".toList else "False".toList)
  | _ => none

/-- Python falsiness of a JSON value. -/
def isFalsyJson : JsonVal → Bool
  | .null => true
  | .bool b => !b
  | .num n => n == 0
  | .str s => s.isEmpty
  | .arr es => es.isEmpty
  | .obj fs => fs.isEmpty

/-- A validated Event (event_parser.py lines 9-37): required title, optional
date/time/location/description. -/
structure PEvent where
  title : List Char
  date : Option (List Char)
  time : Option (List Char)
  location : Option (List Char)
  description : Option (List Char)
deriving DecidableEq

/-- An optional string field of the pydantic model: a missing or null value
is None; other values are str-coerced, failure failing the whole event. -/
def optStrField (v : Option JsonVal) : Option (Option (List Char)) :=
  match v with
  | none => some none
  | some .null => some none
  | some w => (coerceStr w).map some

/-- The validate_date pre-validator applied to the raw date value:
falsy values are returned unchanged, strings are normalised, anything else
passes through (strptime raises TypeError, caught by the outer except). -/
def validateDateRaw (v : JsonVal) : JsonVal :=
  if isFalsyJson v then v
  else
    match v with
    | .str s => .str (normalizeDate s)
    | w => w

/-- Construction of one Event from a JSON value (Event(**event_dict) inside
parse_events): non-objects raise, a missing or uncoercible title fails
validation, optional fields are coerced after the date validator.  JSON
object keys are unique, so the first lookup finds the field. -/
def parseEvent (j : JsonVal) : Option PEvent :=
  match j with
  | .obj fs =>
    match fs.lookup ("title".toList) with
    | none => none
    | some tv =>
      match coerceStr tv with
      | none => none
      | some t =>
        match optStrField ((fs.lookup ("date".toList)).map validateDateRaw) with
        | none => none
        | some dateF =>
          match optStrField (fs.lookup ("time".toList)) with
          | none => none
          | some timeF =>
            match optStrField (fs.lookup ("location".toList)) with
            | none => none
            | some locF =>
              match optStrField (fs.lookup ("description".toList)) with
              | none => none
              | some descF => some ⟨t, dateF, timeF, locF, descF⟩
  | _ => none

/-- parse_events (event_parser.py lines 40-60): each dictionary is validated
into an Event; a failing event is logged and skipped. -/
def parseEvents (eventsData : List JsonVal) : List PEvent :=
  eventsData.filterMap parseEvent

/-- The input normalisation of urlsplit: C0-control and space characters
stripped from the left, then tab, carriage return and newline removed
everywhere. -/
def urlPreprocess (url : List Char) : List Char :=
  (url.dropWhile (fun c => decide (c.toNat ≤ 32))).filter
    (fun c => !(c == Char.ofNat 9 || c == Char.ofNat 13 || c == Char.ofNat 10))

/-- Characters allowed in a URL scheme after the first
(urllib.parse.scheme_chars). -/
def schemeChars (c : Char) : Bool :=
  isAsciiAlpha c || isDigitC c || c == '+' || c == '-' || c == '.'

/-- The scheme/rest split of urllib.parse.urlsplit: a scheme exists when a
colon occurs after a nonempty run of scheme characters whose first character
is an ASCII letter; the scheme is lowercased. -/
def splitScheme (url : List Char) : List Char × List Char :=
  let i := url.findIdx (fun c => c == ':')
  if decide (i < url.length) && decide (0 < i) &&
      (url.take i).all schemeChars &&
      (match url.head? with
       | some c => isAsciiAlpha c
       | none => false) then
    (lowerL (url.take i), url.drop (i + 1))
  else ([], url)

/-- The scheme of urlparse(url). -/
def urlScheme (url : List Char) : List Char :=
  (splitScheme (urlPreprocess url)).1

/-- The netloc of urlparse(url): present only after "//", up to the first
of '/', '?' or '#'. -/
def urlNetloc (url : List Char) : List Char :=
  let rest := (splitScheme (urlPreprocess url)).2
  if ("//".toList).isPrefixOf rest then
    (rest.drop 2).takeWhile (fun c => !(c == '/' || c == '?' || c == '#'))
  else []

/-- The unbalanced-bracket check of urlsplit (which raises ValueError,
caught by _is_valid_url and turned into False).  The further validation of
a balanced bracketed host as an IP address, and the NFKC netloc check, are
not modelled. -/
def bracketMismatch (n : List Char) : Bool :=
  (n.contains '[' && !n.contains ']') || (n.contains ']' && !n.contains '[')

/-- URLEventProcessor._is_valid_url (url_processor.py lines 40-46):
urlparse(url) followed by all([result.scheme, result.netloc]), any
urlsplit exception yielding False. -/
def isValidUrl (url : List Char) : Bool :=
  if bracketMismatch (urlNetloc url) then false
  else !(urlScheme url).isEmpty && !(urlNetloc url).isEmpty

/-- The result of processing one URL (url_processor.py lines 13-28); the
processed_at timestamp, a wall-clock value, is not modelled. -/
structure ProcessingResult where
  url : List Char
  events : List PEvent
  error : Option (List Char)
deriving DecidableEq

/-- URLEventProcessor._get_llm_response (url_processor.py lines 48-85),
parameterised by an oracle for the network-and-json.loads part (the POST to
the chat-completions endpoint, raise_for_status, and parsing of the reply
content; an exception there is an `Except.error` carrying str(e)), followed
by the concrete list coercion. -/
def getLlmResponse (llm : List Char → Except (List Char) JsonVal)
    (url : List Char) : Except (List Char) (List JsonVal) :=
  match llm url with
  | .error e => .error e
  | .ok content => .ok (getLlmResponseCoerce content)

/-- URLEventProcessor.process_url (url_processor.py lines 87-105): invalid
URLs short-circuit with the "Invalid URL format" error (no LLM request —
the result does not depend on the oracle); otherwise any exception from the
LLM call is caught into an error result and success parses the events. -/
def processUrl (llm : List Char → Except (List Char) JsonVal)
    (url : List Char) : ProcessingResult :=
  if !isValidUrl url then ⟨url, [], some ("Invalid URL format".toList)⟩
  else
    match getLlmResponse llm url with
    | .ok eventsData => ⟨url, parseEvents eventsData, none⟩
    | .error e => ⟨url, [], some e⟩

/-- URLEventProcessor.process_urls (url_processor.py lines 107-117): one
result per URL, in order. -/
def processUrls (llm : List Char → Except (List Char) JsonVal)
    (urls : List (List Char)) : List ProcessingResult :=
  urls.map (processUrl llm)

/-- Claim C7 (counterexample): a parsed reply that is a non-list, non-dict
JSON value (here the number 3) is not coerced to a one-element list:
_get_llm_response yields the empty list and extract_events raises
ValueError. -/
theorem llm_nonlist_coercion_counterexample :
    getLlmResponseCoerce (JsonVal.num 3) = [] ∧
    getLlmResponseCoerce (JsonVal.num 3) ≠ [JsonVal.num 3] ∧
    extractEventsCoerce (JsonVal.num 3) =
      Except.error ("LLM did not return a list or dictionary".toList) :=
  ⟨rfl, fun h => List.noConfusion h, rfl⟩

/-- Claim C7 (amended): only dict replies are coerced to a one-element list
containing the dict, by both LLMClient.extract_events and
URLEventProcessor._get_llm_response; every other non-list reply raises
ValueError in extract_events and yields the empty list in
_get_llm_response. -/
theorem llm_nonlist_coercion_amended :
    (∀ fs, extractEventsCoerce (JsonVal.obj fs) = Except.ok [JsonVal.obj fs] ∧
      getLlmResponseCoerce (JsonVal.obj fs) = [JsonVal.obj fs]) ∧
    (∀ j : JsonVal, isArrJ j = false → isObjJ j = false →
      extractEventsCoerce j =
        Except.error ("LLM did not return a list or dictionary".toList) ∧
      getLlmResponseCoerce j = []) := by
  constructor
  · intro fs
    exact ⟨rfl, rfl⟩
  · intro j h1 h2
    cases j with
    | null => exact ⟨rfl, rfl⟩
    | bool b => exact ⟨rfl, rfl⟩
    | num n => exact ⟨rfl, rfl⟩
    | str s => exact ⟨rfl, rfl⟩
    | arr es => cases h1
    | obj fs => cases h2

/-- Witness for llm_nonlist_coercion_amended at the empty dict and a string
value. -/
theorem llm_nonlist_coercion_amended_witness :
    (extractEventsCoerce (JsonVal.obj []) = Except.ok [JsonVal.obj []] ∧
     getLlmResponseCoerce (JsonVal.obj []) = [JsonVal.obj []]) ∧
    (extractEventsCoerce (JsonVal.str ['x']) =
       Except.error ("LLM did not return a list or dictionary".toList) ∧
     getLlmResponseCoerce (JsonVal.str ['x']) = []) :=
  ⟨llm_nonlist_coercion_amended.1 [],
   llm_nonlist_coercion_amended.2 (JsonVal.str ['x']) rfl rfl⟩

theorem processUrl_url_field (llm : List Char → Except (List Char) JsonVal)
    (u : List Char) : (processUrl llm u).url = u := by
  unfold processUrl
  cases hv : isValidUrl u with
  | false => simp [hv]
  | true =>
    simp only [hv, Bool.not_true, Bool.false_eq_true, if_false]
    cases getLlmResponse llm u <;> rfl

/-- Claim C8: process_urls returns exactly one ProcessingResult per input
URL in input order (the i-th result is process_url of the i-th URL, whose
url field is that URL), and an exception raised by the LLM call for one URL
is caught into that URL's result (error message, empty events) without
affecting the processing of the other URLs. -/
theorem processUrls_per_url (llm : List Char → Except (List Char) JsonVal)
    (urls : List (List Char)) :
    (processUrls llm urls).length = urls.length ∧
    (∀ i, (hi : i < urls.length) → (hi2 : i < (processUrls llm urls).length) →
      (processUrls llm urls).get ⟨i, hi2⟩ = processUrl llm (urls.get ⟨i, hi⟩) ∧
      ((processUrls llm urls).get ⟨i, hi2⟩).url = urls.get ⟨i, hi⟩) ∧
    (∀ url msg, isValidUrl url = true → llm url = Except.error msg →
      processUrl llm url = ⟨url, [], some msg⟩) := by
  refine ⟨by simp [processUrls], ?_, ?_⟩
  · intro i hi hi2
    have hget : (processUrls llm urls).get ⟨i, hi2⟩ =
        processUrl llm (urls.get ⟨i, hi⟩) := by
      simp only [processUrls] at hi2 ⊢
      rw [List.get_eq_getElem, List.get_eq_getElem, List.getElem_map]
    exact ⟨hget, by rw [hget]; exact processUrl_url_field llm _⟩
  · intro url msg hv he
    unfold processUrl
    simp only [hv, Bool.not_true, Bool.false_eq_true, if_false]
    unfold getLlmResponse
    rw [he]

/-- Witness for processUrls_per_url: three URLs, the first valid but failing
in the LLM call, the second syntactically invalid, the third succeeding. -/
theorem processUrls_per_url_witness :
    (processUrls
      (fun u => if u = ("http://a.com".toList) then
          Except.error ("boom".toList)
        else Except.ok (JsonVal.arr []))
      ["http://a.com".toList, "nota url".toList, "http://b.com".toList]).length
      = 3 ∧
    ((processUrls
      (fun u => if u = ("http://a.com".toList) then
          Except.error ("boom".toList)
        else Except.ok (JsonVal.arr []))
      ["http://a.com".toList, "nota url".toList, "http://b.com".toList]).get
        ⟨2, by decide⟩).url = "http://b.com".toList ∧
    processUrl
      (fun u => if u = ("http://a.com".toList) then
          Except.error ("boom".toList)
        else Except.ok (JsonVal.arr []))
      ("http://a.com".toList) =
      ⟨"http://a.com".toList, [], some ("boom".toList)⟩ :=
  ⟨(processUrls_per_url
      (fun u => if u = ("http://a.com".toList) then
          Except.error ("boom".toList)
        else Except.ok (JsonVal.arr []))
      ["http://a.com".toList, "nota url".toList, "http://b.com".toList]).1.trans
      rfl,
   ((processUrls_per_url
      (fun u => if u = ("http://a.com".toList) then
          Except.error ("boom".toList)
        else Except.ok (JsonVal.arr []))
      ["http://a.com".toList, "nota url".toList, "http://b.com".toList]).2.1
      2 (by decide) (by decide)).2.trans rfl,
   (processUrls_per_url
      (fun u => if u = ("http://a.com".toList) then
          Except.error ("boom".toList)
        else Except.ok (JsonVal.arr []))
      ["http://a.com".toList, "nota url".toList, "http://b.com".toList]).2.2
      ("http://a.com".toList) ("boom".toList) (by decide) (by rfl)⟩

/-- Claim C10: for every input string that urlparse gives no scheme or no
netloc, process_url returns the "Invalid URL format" result with no events,
without raising; the result is the same for every LLM oracle, i.e. no LLM
request is needed. -/
theorem processUrl_invalid_url (llm : List Char → Except (List Char) JsonVal)
    (url : List Char) (h : urlScheme url = [] ∨ urlNetloc url = []) :
    processUrl llm url = ⟨url, [], some ("Invalid URL format".toList)⟩ := by
  have hv : isValidUrl url = false := by
    unfold isValidUrl
    cases hb : bracketMismatch (urlNetloc url) with
    | true => simp
    | false =>
      rcases h with h | h <;> simp [h]
  unfold processUrl
  simp [hv]

/-- Witness for processUrl_invalid_url at "not a url" (no colon, hence no
scheme) with an arbitrary concrete oracle. -/
theorem processUrl_invalid_url_witness :
    (urlScheme ("not a url".toList) = [] ∨ urlNetloc ("not a url".toList) = []) ∧
    processUrl (fun _ => Except.ok JsonVal.null) ("not a url".toList) =
      ⟨"not a url".toList, [], some ("Invalid URL format".toList)⟩ :=
  ⟨Or.inl (by decide),
   processUrl_invalid_url (fun _ => Except.ok JsonVal.null)
     ("not a url".toList) (Or.inl (by decide))⟩
